import Mathlib

set_option autoImplicit false

/-!
Shallow embedding of the module loading and dependency resolution subsystem
of the modAI chat backend (`src/backend/src/modai/module_loader.py` together
with the module contract in `src/backend/src/modai/module.py`).

Python dictionaries from the startup configuration are modelled as
association lists of string keys; Python runtime values occurring in the
configuration are modelled by the inductive type `PyVal`; a Python
exception propagating out of a function is modelled by `Except.error`.
The external collaborators (dynamic import of a class by dotted path, and
the constructor of the imported class) are modelled by a `LoadEnv`
parameter; a successfully constructed module instance records exactly its
construction inputs, mirroring `ModaiModule.__init__`, which stores the
dependency bag and the config on the instance.
-/

/-- Log levels used by the loader (`logger.info` / `logger.error`). -/
inductive LogLevel where
  | info
  | error
deriving DecidableEq, Repr

/-- One emitted log line. -/
structure LogEntry where
  level : LogLevel
  msg : String
deriving DecidableEq, Repr

/-- Python runtime values occurring in the startup configuration. -/
inductive PyVal where
  | none
  | bool (b : Bool)
  | int (n : Int)
  | str (s : String)
  | dict (entries : List (String × PyVal))

/-- Python truthiness of a configuration value. -/
def truthy : PyVal → Bool
  | PyVal.none => false
  | PyVal.bool b => b
  | PyVal.int n => n != 0
  | PyVal.str s => s != ""
  | PyVal.dict l => !l.isEmpty

/-- A Python dict with string keys, as it appears in the configuration. -/
abbrev PyDict := List (String × PyVal)

/-- First-match association lookup; models Python dict indexing
(keys of a Python dict are unique, so first-match agrees with it). -/
def alookup {α : Type} : List (String × α) → String → Option α
  | [], _ => Option.none
  | (k, v) :: rest, n => if k = n then some v else alookup rest n

/-- Models Python `d.get(k, dflt)` on a dict. -/
def dictGetD (d : PyDict) (k : String) (dflt : PyVal) : PyVal :=
  (alookup d k).getD dflt

/-- The keys of an association list, in order. -/
def keysOf {α : Type} (l : List (String × α)) : List String := l.map Prod.fst

/-- Models Python `d[k] = v` on a dict: replace in place when the key is
present (keys are unique, so replacing the first occurrence is exact),
append otherwise. -/
def dictSet {α : Type} : List (String × α) → String → α → List (String × α)
  | [], k, v => [(k, v)]
  | (k0, v0) :: rest, k, v =>
    if k0 = k then (k, v) :: rest else (k0, v0) :: dictSet rest k v

/-- A constructed module instance.  `ModaiModule.__init__` stores the
resolved-dependency bag and the nested config on the instance, so an
instance is faithfully represented by its construction inputs: the class
it was built from, the dependency snapshot, and the nested config. -/
inductive ModaiModule where
  | mk (cls : String) (deps : List (String × ModaiModule)) (config : PyVal)

/-- The dependency bag stored on an instance (`self.dependencies`). -/
def ModaiModule.dependencies : ModaiModule → List (String × ModaiModule)
  | ModaiModule.mk _ deps _ => deps

/-- The class the instance was constructed from. -/
def ModaiModule.clsName : ModaiModule → String
  | ModaiModule.mk c _ _ => c

/-- The nested config stored on an instance (`self.config`). -/
def ModaiModule.nestedConfig : ModaiModule → PyVal
  | ModaiModule.mk _ _ cfg => cfg

/-- Outcome of calling an imported class's constructor. -/
inductive ConstructOutcome where
  | ok
  | falsy
  | raises (msg : String)

/-- The external collaborators of the loader: dynamic import of a class by
dotted path (`_import_class`), and the behaviour of the imported class's
constructor.  `importClass p` is `Except.error e` when the import or the
attribute lookup raises, `Except.ok Option.none` when the dotted path
resolves to a falsy object, and `Except.ok (some cls)` when it resolves to
a truthy class.  `constructOutcome cls deps cfg` tells whether calling
`cls(deps, cfg)` returns a (truthy) instance, returns a falsy result, or
raises. -/
structure LoadEnv where
  importClass : String → Except String (Option String)
  constructOutcome : String → List (String × ModaiModule) → PyVal → ConstructOutcome

/-- Models `_import_class` applied to the raw configuration value of the
`"class"` key: a non-string value has no `rsplit`, so the call raises. -/
def import_class (env : LoadEnv) (classPath : PyVal) : Except String (Option String) :=
  match classPath with
  | PyVal.str s => env.importClass s
  | _ => Except.error "AttributeError: rsplit"

/-- The mutable state of a `ModuleLoader` object: the `loaded_modules`
registry and the log stream emitted so far. -/
structure LoaderState where
  loadedModules : List (String × ModaiModule)
  log : List LogEntry

/-- The state established by `ModuleLoader.__init__`: empty registry,
nothing logged. -/
def initState : LoaderState := ⟨[], []⟩

/-- Models `ModuleLoader.get_module`: `self.loaded_modules.get(module_name)`. -/
def get_module (st : LoaderState) (moduleName : String) : Option ModaiModule :=
  alookup st.loadedModules moduleName

/-- Models `_construct_module_dependencies`: build the alias → instance bag from
the declared dependency items, or `Option.none` as soon as one declared
dependency name is not in the registry.  A dict-valued dependency name is
unhashable, so the membership test raises. -/
def construct_module_dependencies (loadedModules : List (String × ModaiModule)) :
    List (String × PyVal) → Except String (Option (List (String × ModaiModule)))
  | [] => Except.ok (some [])
  | (depKey, depVal) :: rest =>
    match depVal with
    | PyVal.dict _ => Except.error "TypeError: unhashable type"
    | PyVal.str depModuleName =>
      match alookup loadedModules depModuleName with
      | Option.none => Except.ok Option.none
      | some m =>
        match construct_module_dependencies loadedModules rest with
        | Except.ok (some deps) => Except.ok (some ((depKey, m) :: deps))
        | other => other
    | _ => Except.ok Option.none

/-- The body of `_load_module` before its `except` clause: raises
(`Except.error`) when no class is configured or the import or the
constructor raises; returns silently (`Except.ok Option.none`) when the
imported class or the constructed instance is falsy; otherwise yields the
constructed instance. -/
def load_module_body (env : LoadEnv) (moduleName : String) (moduleClassPath : PyVal)
    (moduleDependencies : List (String × ModaiModule)) (nestedConfig : PyVal) :
    Except String (Option ModaiModule) :=
  if truthy moduleClassPath = false then
    Except.error ("Module '" ++ moduleName ++ "' has no class defined")
  else
    match import_class env moduleClassPath with
    | Except.error e => Except.error e
    | Except.ok Option.none => Except.ok Option.none
    | Except.ok (some cls) =>
      match env.constructOutcome cls moduleDependencies nestedConfig with
      | ConstructOutcome.raises msg => Except.error msg
      | ConstructOutcome.falsy => Except.ok Option.none
      | ConstructOutcome.ok =>
        Except.ok (some (ModaiModule.mk cls moduleDependencies nestedConfig))

/-- Models `_load_module`: run the body; on success register the instance and log
at info level, on a silent falsy result do nothing, on an exception log at
error level and continue (graceful degradation). -/
def load_module (env : LoadEnv) (st : LoaderState) (moduleName : String)
    (moduleClassPath : PyVal) (moduleDependencies : List (String × ModaiModule))
    (nestedConfig : PyVal) : LoaderState :=
  match load_module_body env moduleName moduleClassPath moduleDependencies nestedConfig with
  | Except.ok (some inst) =>
    { loadedModules := dictSet st.loadedModules moduleName inst
      log := st.log ++ [⟨LogLevel.info, "Successfully loaded module: " ++ moduleName⟩] }
  | Except.ok Option.none => st
  | Except.error e =>
    { st with
      log := st.log ++ [⟨LogLevel.error, "Failed to load module " ++ moduleName ++ ": " ++ e⟩] }

/-- Models `full_module_config.get("module_dependencies", {})` followed by
`.items()`: raises when the configured value is not a dict. -/
def get_dep_items (c : PyDict) : Except String (List (String × PyVal)) :=
  match dictGetD c "module_dependencies" (PyVal.dict []) with
  | PyVal.dict items => Except.ok items
  | _ => Except.error "AttributeError: items"

/-- Models `full_module_config.get("class")`. -/
def class_of (c : PyDict) : PyVal := dictGetD c "class" PyVal.none

/-- Models `full_module_config.get("config", {})`. -/
def config_of (c : PyDict) : PyVal := dictGetD c "config" (PyVal.dict [])

/-- One `for` sweep of `_load_modules_with_dependencies` over the snapshot
`list(remaining_modules.items())`: entries whose dependency bag cannot yet
be built are kept (in order) in the returned remainder, entries whose bag
is built are attempted via `_load_module` against the live state and
removed from the remainder. -/
def load_pass (env : LoadEnv) (st : LoaderState) :
    List (String × PyDict) → Except String (LoaderState × List (String × PyDict))
  | [] => Except.ok (st, [])
  | (moduleName, c) :: rest =>
    match get_dep_items c with
    | Except.error e => Except.error e
    | Except.ok items =>
      match construct_module_dependencies st.loadedModules items with
      | Except.error e => Except.error e
      | Except.ok Option.none =>
        match load_pass env st rest with
        | Except.ok (st1, rem) => Except.ok (st1, (moduleName, c) :: rem)
        | Except.error e => Except.error e
      | Except.ok (some deps) =>
        load_pass env
          (load_module env st moduleName (class_of c) deps (config_of c))
          rest

/-- The error message naming every stuck module. -/
def unresolvable_msg (rem : List (String × PyDict)) : String :=
  "Unresolvable module dependencies for modules: " ++ String.intercalate ", " (keysOf rem)

/-- Models `_load_modules_with_dependencies`: one sweep; if the remainder is
non-empty and as large as the input, log the unresolvable-dependencies
error and stop; if the remainder is non-empty but smaller, recurse on it;
otherwise done. -/
def load_modules_with_dependencies (env : LoadEnv) (st : LoaderState)
    (modulesConfig : List (String × PyDict)) : Except String LoaderState :=
  match h : load_pass env st modulesConfig with
  | Except.error e => Except.error e
  | Except.ok (st1, rem) =>
    if rem.length > 0 ∧ rem.length = modulesConfig.length then
      Except.ok { st1 with log := st1.log ++ [⟨LogLevel.error, unresolvable_msg rem⟩] }
    else if rem.length > 0 then
      load_modules_with_dependencies env st1 rem
    else
      Except.ok st1
termination_by modulesConfig.length
decreasing_by
  have hle : ∀ (l : List (String × PyDict)) (st0 st2 : LoaderState)
      (rem2 : List (String × PyDict)),
      load_pass env st0 l = Except.ok (st2, rem2) → rem2.length ≤ l.length := by
    intro l
    induction l with
    | nil =>
      intro st0 st2 rem2 hp
      simp [load_pass] at hp
      simp [hp.2]
    | cons p rest ih =>
      intro st0 st2 rem2 hp
      obtain ⟨nm, c⟩ := p
      simp only [load_pass] at hp
      cases hgi : get_dep_items c with
      | error e => simp [hgi] at hp
      | ok items =>
        simp only [hgi] at hp
        cases hcmd : construct_module_dependencies st0.loadedModules items with
        | error e => simp [hcmd] at hp
        | ok deps? =>
          simp only [hcmd] at hp
          cases deps? with
          | none =>
            simp only at hp
            cases hlp : load_pass env st0 rest with
            | error e => simp [hlp] at hp
            | ok pr =>
              obtain ⟨st3, rem3⟩ := pr
              simp only [hlp, Except.ok.injEq, Prod.mk.injEq] at hp
              obtain ⟨h1, h2⟩ := hp
              subst h2
              have := ih st0 st3 rem3 hlp
              simpa using Nat.succ_le_succ this
          | some deps =>
            simp only at hp
            have := ih _ st2 rem2 hp
            exact Nat.le_succ_of_le this
  have hle2 := hle modulesConfig st st1 rem h
  simp_all
  omega

/-- Python's `config.get("enabled", True) is False`: identity with the
`False` singleton, which only the boolean value `False` satisfies. -/
def isFalseV : PyVal → Bool
  | PyVal.bool false => true
  | _ => false

/-- Models `_filter_disabled_modules`: keep the entries whose `enabled` value is
not identically `False`, logging skipped ones at info level.  Calling
`.get` on a non-dict descriptor raises. -/
def filter_disabled_modules (log : List LogEntry) :
    List (String × PyVal) → Except String (List LogEntry × List (String × PyDict))
  | [] => Except.ok (log, [])
  | (key, v) :: rest =>
    match v with
    | PyVal.dict config =>
      if isFalseV (dictGetD config "enabled" (PyVal.bool true)) then
        filter_disabled_modules
          (log ++ [⟨LogLevel.info, "Module '" ++ key ++ "' is disabled, skipping"⟩]) rest
      else
        match filter_disabled_modules log rest with
        | Except.ok (log1, en) => Except.ok (log1, (key, config) :: en)
        | Except.error e => Except.error e
    | _ => Except.error "AttributeError: get"

/-- The dict comprehension in `load_modules`:
`{name: config if config else {} for name, config in modules_config.items()}`. -/
def normalize_modules (mc : List (String × PyVal)) : List (String × PyVal) :=
  mc.map (fun p => (p.1, if truthy p.2 then p.2 else PyVal.dict []))

/-- Models `ModuleLoader.load_modules`: read the `"modules"` section (defaulting
to empty), normalize falsy descriptors to empty dicts, filter disabled
modules, and run dependency resolution.  Iterating a non-dict `"modules"`
value raises. -/
def load_modules (env : LoadEnv) (startupConfig : PyDict) (st : LoaderState) :
    Except String LoaderState :=
  match dictGetD startupConfig "modules" (PyVal.dict []) with
  | PyVal.dict mc =>
    match filter_disabled_modules st.log (normalize_modules mc) with
    | Except.error e => Except.error e
    | Except.ok (log1, enabled) =>
      load_modules_with_dependencies env { st with log := log1 } enabled
  | _ => Except.error "AttributeError: items"

/-- A value that Python can use in a dict-membership test without raising
(everything except an (unhashable) dict in this value model). -/
def hashableVal : PyVal → Bool
  | PyVal.dict _ => false
  | _ => true

/-- The declared dependency items of a descriptor, when they form a dict. -/
def dep_items_of (c : PyDict) : List (String × PyVal) :=
  match dictGetD c "module_dependencies" (PyVal.dict []) with
  | PyVal.dict items => items
  | _ => []

/-- A descriptor dict whose `module_dependencies` value (defaulting to the
empty dict) is a dict of hashable values: exactly the descriptors on which
the sweep body cannot raise. -/
def entry_shaped (c : PyDict) : Bool :=
  match dictGetD c "module_dependencies" (PyVal.dict []) with
  | PyVal.dict items => items.all (fun q => hashableVal q.2)
  | _ => false

/-- Every entry of a filtered module set is a well-shaped descriptor. -/
def entries_shaped (cfg : List (String × PyDict)) : Bool :=
  cfg.all (fun p => entry_shaped p.2)

/-- A raw `"modules"` mapping value: either falsy (normalized to an empty
descriptor) or a well-shaped descriptor dict. -/
def module_val_shaped (v : PyVal) : Bool :=
  if truthy v then
    match v with
    | PyVal.dict c => entry_shaped c
    | _ => false
  else true

/-- A startup configuration whose `"modules"` section (defaulting to
empty) is a mapping from module name to descriptor mapping, each
well-shaped. -/
def startup_shaped (sc : PyDict) : Bool :=
  match dictGetD sc "modules" (PyVal.dict []) with
  | PyVal.dict mc => mc.all (fun p => module_val_shaped p.2)
  | _ => false

/-- Order-preserving functional characterization of
`_filter_disabled_modules` on a list of dict-valued descriptors. -/
def enabled_filter (mc : List (String × PyVal)) : List (String × PyDict) :=
  mc.filterMap (fun p =>
    match p.2 with
    | PyVal.dict c =>
      if isFalseV (dictGetD c "enabled" (PyVal.bool true)) then Option.none
      else some (p.1, c)
    | _ => Option.none)

/-- A registry entry `(n, m)` is justified by the descriptor set `cfg`
over the registry `reg`: `n` has a descriptor whose dependency bag is
resolvable in `reg` and whose single-module load body constructs `m`. -/
def GoodEntry (env : LoadEnv) (cfg : List (String × PyDict))
    (reg : List (String × ModaiModule)) (n : String) (m : ModaiModule) : Prop :=
  ∃ c deps, alookup cfg n = some c ∧
    construct_module_dependencies reg (dep_items_of c) = Except.ok (some deps) ∧
    load_module_body env n (class_of c) deps (config_of c) = Except.ok (some m)

/-- A registry is saturated for `cfg`: every descriptor whose dependency
bag resolves in the registry and whose load body succeeds is already
registered with exactly the constructed instance. -/
def Saturated (env : LoadEnv) (cfg : List (String × PyDict))
    (reg : List (String × ModaiModule)) : Prop :=
  ∀ n c deps m, alookup cfg n = some c →
    construct_module_dependencies reg (dep_items_of c) = Except.ok (some deps) →
    load_module_body env n (class_of c) deps (config_of c) = Except.ok (some m) →
    alookup reg n = some m

/-! ### Concrete environments and configurations used as examples -/

/-- An environment where every dotted path resolves to a truthy class named
after the path and every constructor returns a truthy instance. -/
def envAll : LoadEnv :=
  { importClass := fun s => Except.ok (some s)
    constructOutcome := fun _ _ _ => ConstructOutcome.ok }

/-- An environment whose constructors return a falsy result. -/
def envFalsy : LoadEnv :=
  { importClass := fun s => Except.ok (some s)
    constructOutcome := fun _ _ _ => ConstructOutcome.falsy }

/-- An environment whose constructors raise. -/
def envRaise : LoadEnv :=
  { importClass := fun s => Except.ok (some s)
    constructOutcome := fun _ _ _ => ConstructOutcome.raises "boom" }

/-- A descriptor set consisting of one self-dependent module: a dependency
cycle. -/
def cfgCycle : List (String × PyDict) :=
  [("a", [("module_dependencies", PyVal.dict [("x", PyVal.str "a")])])]

/-- A startup configuration with one plainly configured module. -/
def scOne : PyDict :=
  [("modules", PyVal.dict [("m", PyVal.dict [("class", PyVal.str "a.C")])])]

/-- A loader state with one module already registered. -/
def stPre : LoaderState :=
  { loadedModules := [("z", ModaiModule.mk "Z" [] (PyVal.dict []))], log := [] }

/-- Descriptor entry of a module with no dependencies. -/
def entA : String × PyVal := ("a", PyVal.dict [("class", PyVal.str "pa")])

/-- Descriptor entry of a module depending on module `"a"` under local
alias `"foo"`. -/
def entB : String × PyVal :=
  ("b", PyVal.dict [("class", PyVal.str "pb"),
    ("module_dependencies", PyVal.dict [("foo", PyVal.str "a")])])

/-- Descriptor entry of a module depending on module `"b"` under local
alias `"bar"`. -/
def entC : String × PyVal :=
  ("c", PyVal.dict [("class", PyVal.str "pc"),
    ("module_dependencies", PyVal.dict [("bar", PyVal.str "b")])])

/-- Descriptor entry of a disabled module. -/
def entDis : String × PyVal :=
  ("d", PyVal.dict [("class", PyVal.str "D"), ("enabled", PyVal.bool false)])

/-- Descriptor entry of a module depending on the disabled module `"d"`. -/
def entDep : String × PyVal :=
  ("e", PyVal.dict [("class", PyVal.str "E"),
    ("module_dependencies", PyVal.dict [("x", PyVal.str "d")])])

/-- A modules mapping exercising non-boolean and boolean `enabled` values. -/
def mcW9 : List (String × PyVal) :=
  [("a", PyVal.dict [("enabled", PyVal.int 0)]),
   ("b", PyVal.dict [("enabled", PyVal.bool false)])]

/-- A startup configuration whose modules are all misconfigured: one with
no implementation reference, one with an unresolvable dependency, and one
whose descriptor is falsy. -/
def scBad4 : PyDict :=
  [("modules", PyVal.dict
    [("m1", PyVal.dict [("x", PyVal.int 1)]),
     ("m2", PyVal.dict [("class", PyVal.str "C"),
       ("module_dependencies", PyVal.dict [("x", PyVal.str "ghost")])]),
     ("m3", PyVal.none)])]

/-! ### Basic lemmas about the dict model -/

theorem alookup_eq_some_mem {α : Type} {l : List (String × α)} {k : String} {v : α}
    (h : alookup l k = some v) : (k, v) ∈ l := by
  induction l with
  | nil => simp [alookup] at h
  | cons p rest ih =>
    obtain ⟨k0, v0⟩ := p
    by_cases hk : k0 = k
    · subst hk
      simp [alookup] at h
      simp [h]
    · simp [alookup, hk] at h
      exact List.mem_cons_of_mem _ (ih h)

theorem mem_keysOf_of_mem {α : Type} {l : List (String × α)} {k : String} {v : α}
    (h : (k, v) ∈ l) : k ∈ keysOf l := by
  simpa [keysOf] using List.mem_map_of_mem Prod.fst h

theorem alookup_eq_none_iff {α : Type} {l : List (String × α)} {k : String} :
    alookup l k = Option.none ↔ k ∉ keysOf l := by
  induction l with
  | nil => simp [alookup, keysOf]
  | cons p rest ih =>
    obtain ⟨k0, v0⟩ := p
    by_cases hk : k0 = k
    · subst hk
      simp [alookup, keysOf]
    · simp [alookup, hk, keysOf, ih, Ne.symm hk]

theorem alookup_eq_some_of_mem_nodup {α : Type} {l : List (String × α)} {k : String} {v : α}
    (hnd : (keysOf l).Nodup) (h : (k, v) ∈ l) : alookup l k = some v := by
  induction l with
  | nil => simp at h
  | cons p rest ih =>
    obtain ⟨k0, v0⟩ := p
    simp only [keysOf, List.map_cons, List.nodup_cons] at hnd
    rcases List.mem_cons.mp h with h1 | h1
    · rw [Prod.ext_iff] at h1
      obtain ⟨h2, h3⟩ := h1
      simp only at h2 h3
      subst h2
      simp [alookup, h3]
    · have hk : k0 ≠ k := by
        intro he
        subst he
        exact hnd.1 (mem_keysOf_of_mem h1)
      simp only [alookup, if_neg hk]
      exact ih hnd.2 h1

theorem alookup_dictSet_self {α : Type} {d : List (String × α)} {k : String} {v : α} :
    alookup (dictSet d k v) k = some v := by
  induction d with
  | nil => simp [dictSet, alookup]
  | cons p rest ih =>
    obtain ⟨k0, v0⟩ := p
    by_cases hk : k0 = k
    · subst hk
      simp [dictSet, alookup]
    · simp [dictSet, hk, alookup, ih]

theorem alookup_dictSet_other {α : Type} {d : List (String × α)} {k n : String} {v : α}
    (hn : n ≠ k) : alookup (dictSet d k v) n = alookup d n := by
  induction d with
  | nil => simp [dictSet, alookup, Ne.symm hn]
  | cons p rest ih =>
    obtain ⟨k0, v0⟩ := p
    by_cases hk : k0 = k
    · subst hk
      simp [dictSet, alookup, Ne.symm hn]
    · simp [dictSet, hk, alookup, ih]

theorem alookup_perm {α : Type} {l1 l2 : List (String × α)}
    (hp : l1.Perm l2) (hnd : (keysOf l1).Nodup) (k : String) :
    alookup l1 k = alookup l2 k := by
  have hnd2 : (keysOf l2).Nodup := ((hp.map Prod.fst).nodup_iff).mp hnd
  cases hv : alookup l1 k with
  | none =>
    rw [alookup_eq_none_iff] at hv
    have hk2 : k ∉ keysOf l2 := fun hm => hv (((hp.map Prod.fst).mem_iff).mpr hm)
    rw [Eq.comm, alookup_eq_none_iff]
    exact hk2
  | some v =>
    have hm : (k, v) ∈ l2 := hp.mem_iff.mp (alookup_eq_some_mem hv)
    rw [Eq.comm]
    exact alookup_eq_some_of_mem_nodup hnd2 hm

/-! ### Lemmas about dependency-bag construction and single-module load -/

theorem cmd_ok_of_hashable {reg : List (String × ModaiModule)}
    {items : List (String × PyVal)}
    (h : items.all (fun q => hashableVal q.2) = true) :
    ∃ r, construct_module_dependencies reg items = Except.ok r := by
  induction items with
  | nil => exact ⟨some [], rfl⟩
  | cons q rest ih =>
    obtain ⟨dk, dv⟩ := q
    simp only [List.all_cons, Bool.and_eq_true] at h
    obtain ⟨r, hr⟩ := ih h.2
    cases dv with
    | dict d => simp [hashableVal] at h
    | str dn =>
      cases hl : alookup reg dn with
      | none => exact ⟨Option.none, by simp [construct_module_dependencies, hl]⟩
      | some m =>
        cases r with
        | none =>
          exact ⟨Option.none, by simp [construct_module_dependencies, hl, hr]⟩
        | some deps =>
          exact ⟨some ((dk, m) :: deps), by simp [construct_module_dependencies, hl, hr]⟩
    | none => exact ⟨Option.none, by simp [construct_module_dependencies]⟩
    | bool b => exact ⟨Option.none, by simp [construct_module_dependencies]⟩
    | int n => exact ⟨Option.none, by simp [construct_module_dependencies]⟩

theorem cmd_extend {reg reg2 : List (String × ModaiModule)}
    {items : List (String × PyVal)} {deps : List (String × ModaiModule)}
    (h : construct_module_dependencies reg items = Except.ok (some deps))
    (hsub : ∀ k v, alookup reg k = some v → alookup reg2 k = some v) :
    construct_module_dependencies reg2 items = Except.ok (some deps) := by
  induction items generalizing deps with
  | nil =>
    simp [construct_module_dependencies] at h
    simp [construct_module_dependencies, ← h]
  | cons q rest ih =>
    obtain ⟨dk, dv⟩ := q
    cases dv with
    | dict d => simp [construct_module_dependencies] at h
    | str dn =>
      cases hl : alookup reg dn with
      | none => simp [construct_module_dependencies, hl] at h
      | some m =>
        simp only [construct_module_dependencies, hl] at h
        cases hr : construct_module_dependencies reg rest with
        | error e => simp [hr] at h
        | ok r0 =>
          cases r0 with
          | none => simp [hr] at h
          | some deps0 =>
            simp only [hr, Except.ok.injEq, Option.some.injEq] at h
            have h2 := hsub dn m hl
            have h3 := ih hr
            simp [construct_module_dependencies, h2, h3, ← h]
    | none => simp [construct_module_dependencies] at h
    | bool b => simp [construct_module_dependencies] at h
    | int n => simp [construct_module_dependencies] at h

theorem cmd_none_of_dep_absent {reg : List (String × ModaiModule)}
    {items : List (String × PyVal)} {dk dn : String}
    (hmem : (dk, PyVal.str dn) ∈ items)
    (habs : alookup reg dn = Option.none)
    (hh : items.all (fun q => hashableVal q.2) = true) :
    construct_module_dependencies reg items = Except.ok Option.none := by
  induction items with
  | nil => simp at hmem
  | cons q rest ih =>
    obtain ⟨k0, v0⟩ := q
    simp only [List.all_cons, Bool.and_eq_true] at hh
    rcases List.mem_cons.mp hmem with h1 | h1
    · rw [Prod.ext_iff] at h1
      obtain ⟨h2, h3⟩ := h1
      simp only at h2 h3
      subst h3
      simp [construct_module_dependencies, habs]
    · have htail := ih h1 hh.2
      cases v0 with
      | dict d => simp [hashableVal] at hh
      | str dn0 =>
        cases hl : alookup reg dn0 with
        | none => simp [construct_module_dependencies, hl]
        | some m => simp [construct_module_dependencies, hl, htail]
      | none => simp [construct_module_dependencies]
      | bool b => simp [construct_module_dependencies]
      | int n => simp [construct_module_dependencies]

theorem get_dep_items_ok_inv {c : PyDict} {items : List (String × PyVal)}
    (h : get_dep_items c = Except.ok items) : items = dep_items_of c := by
  unfold get_dep_items at h
  unfold dep_items_of
  cases hv : dictGetD c "module_dependencies" (PyVal.dict []) with
  | dict l => rw [hv] at h; simp at h; simp [h]
  | none => rw [hv] at h; simp at h
  | bool b => rw [hv] at h; simp at h
  | int n => rw [hv] at h; simp at h
  | str s => rw [hv] at h; simp at h

theorem get_dep_items_of_shaped {c : PyDict} (h : entry_shaped c = true) :
    get_dep_items c = Except.ok (dep_items_of c) := by
  unfold entry_shaped at h
  unfold get_dep_items dep_items_of
  cases hv : dictGetD c "module_dependencies" (PyVal.dict []) with
  | dict l => rfl
  | none => rw [hv] at h; simp at h
  | bool b => rw [hv] at h; simp at h
  | int n => rw [hv] at h; simp at h
  | str s => rw [hv] at h; simp at h

theorem dep_items_hashable_of_shaped {c : PyDict} (h : entry_shaped c = true) :
    (dep_items_of c).all (fun q => hashableVal q.2) = true := by
  unfold entry_shaped at h
  unfold dep_items_of
  cases hv : dictGetD c "module_dependencies" (PyVal.dict []) with
  | dict l => rw [hv] at h; exact h
  | none => rw [hv] at h; simp at h
  | bool b => rw [hv] at h; simp at h
  | int n => rw [hv] at h; simp at h
  | str s => rw [hv] at h; simp at h

theorem body_ok_inv {env : LoadEnv} {n : String} {clsV : PyVal}
    {deps : List (String × ModaiModule)} {nc : PyVal} {m : ModaiModule}
    (h : load_module_body env n clsV deps nc = Except.ok (some m)) :
    ∃ cls, import_class env clsV = Except.ok (some cls) ∧
      m = ModaiModule.mk cls deps nc := by
  unfold load_module_body at h
  by_cases ht : truthy clsV = false
  · rw [if_pos ht] at h; simp at h
  · rw [if_neg ht] at h
    cases hi : import_class env clsV with
    | error e => rw [hi] at h; simp at h
    | ok cls? =>
      rw [hi] at h
      cases cls? with
      | none => simp at h
      | some cls =>
        cases ho : env.constructOutcome cls deps nc with
        | raises msg => simp [ho] at h
        | falsy => simp [ho] at h
        | ok =>
          simp only [ho, Except.ok.injEq, Option.some.injEq] at h
          exact ⟨cls, rfl, h.symm⟩

theorem load_module_of_error {env : LoadEnv} {st : LoaderState} {n : String}
    {clsV : PyVal} {deps : List (String × ModaiModule)} {nc : PyVal} {e : String}
    (h : load_module_body env n clsV deps nc = Except.error e) :
    load_module env st n clsV deps nc =
      { st with log := st.log ++ [⟨LogLevel.error, "Failed to load module " ++ n ++ ": " ++ e⟩] } := by
  unfold load_module
  rw [h]

theorem load_module_of_silent {env : LoadEnv} {st : LoaderState} {n : String}
    {clsV : PyVal} {deps : List (String × ModaiModule)} {nc : PyVal}
    (h : load_module_body env n clsV deps nc = Except.ok Option.none) :
    load_module env st n clsV deps nc = st := by
  unfold load_module
  rw [h]

theorem load_module_of_ok {env : LoadEnv} {st : LoaderState} {n : String}
    {clsV : PyVal} {deps : List (String × ModaiModule)} {nc : PyVal} {m : ModaiModule}
    (h : load_module_body env n clsV deps nc = Except.ok (some m)) :
    load_module env st n clsV deps nc =
      { loadedModules := dictSet st.loadedModules n m
        log := st.log ++ [⟨LogLevel.info, "Successfully loaded module: " ++ n⟩] } := by
  unfold load_module
  rw [h]

theorem load_module_lookup_other {env : LoadEnv} {st : LoaderState} {mn : String}
    {clsV : PyVal} {deps : List (String × ModaiModule)} {nc : PyVal} {n : String}
    (hn : n ≠ mn) :
    alookup (load_module env st mn clsV deps nc).loadedModules n =
      alookup st.loadedModules n := by
  unfold load_module
  cases h : load_module_body env mn clsV deps nc with
  | error e => rfl
  | ok m? =>
    cases m? with
    | none => rfl
    | some m => exact alookup_dictSet_other hn

/-! ### Lemmas about one resolution sweep (`load_pass`) -/

theorem load_pass_nil_inv {env : LoadEnv} {st st1 : LoaderState}
    {rem : List (String × PyDict)}
    (h : load_pass env st [] = Except.ok (st1, rem)) : st1 = st ∧ rem = [] := by
  simp only [load_pass, Except.ok.injEq, Prod.mk.injEq] at h
  exact ⟨h.1.symm, h.2.symm⟩

theorem load_pass_cons_inv {env : LoadEnv} {st st1 : LoaderState} {n : String}
    {c : PyDict} {rest rem : List (String × PyDict)}
    (h : load_pass env st ((n, c) :: rest) = Except.ok (st1, rem)) :
    ∃ items, get_dep_items c = Except.ok items ∧
      ((construct_module_dependencies st.loadedModules items = Except.ok Option.none ∧
         ∃ rem0, load_pass env st rest = Except.ok (st1, rem0) ∧ rem = (n, c) :: rem0) ∨
       (∃ deps, construct_module_dependencies st.loadedModules items = Except.ok (some deps) ∧
         load_pass env (load_module env st n (class_of c) deps (config_of c)) rest =
           Except.ok (st1, rem))) := by
  simp only [load_pass] at h
  cases hgi : get_dep_items c with
  | error e => rw [hgi] at h; simp at h
  | ok items =>
    rw [hgi] at h
    refine ⟨items, rfl, ?_⟩
    cases hcmd : construct_module_dependencies st.loadedModules items with
    | error e => simp [hcmd] at h
    | ok deps? =>
      cases deps? with
      | none =>
        simp only [hcmd] at h
        cases hlp : load_pass env st rest with
        | error e => simp [hlp] at h
        | ok pr =>
          obtain ⟨st2, rem2⟩ := pr
          simp only [hlp, Except.ok.injEq, Prod.mk.injEq] at h
          exact Or.inl ⟨rfl, rem2, by rw [h.1], h.2.symm⟩
      | some deps =>
        simp only [hcmd] at h
        exact Or.inr ⟨deps, rfl, h⟩

theorem load_pass_rem_sublist {env : LoadEnv} {st st1 : LoaderState}
    {l rem : List (String × PyDict)}
    (h : load_pass env st l = Except.ok (st1, rem)) : rem.Sublist l := by
  induction l generalizing st rem with
  | nil =>
    obtain ⟨-, h2⟩ := load_pass_nil_inv h
    simp [h2]
  | cons p rest ih =>
    obtain ⟨n, c⟩ := p
    obtain ⟨items, -, hcase⟩ := load_pass_cons_inv h
    rcases hcase with ⟨-, rem0, hlp, hrem⟩ | ⟨deps, -, hlp⟩
    · rw [hrem]
      exact List.Sublist.cons₂ (n, c) (ih hlp)
    · exact List.Sublist.cons (n, c) (ih hlp)

theorem load_pass_ok_of_shaped {env : LoadEnv} {l : List (String × PyDict)}
    (hsh : entries_shaped l = true) :
    ∀ st : LoaderState, ∃ st1 rem, load_pass env st l = Except.ok (st1, rem) := by
  induction l with
  | nil => intro st; exact ⟨st, [], rfl⟩
  | cons p rest ih =>
    intro st
    obtain ⟨n, c⟩ := p
    simp only [entries_shaped, List.all_cons, Bool.and_eq_true] at hsh
    have hrest : entries_shaped rest = true := hsh.2
    have hitems := get_dep_items_of_shaped hsh.1
    obtain ⟨r, hr⟩ := @cmd_ok_of_hashable st.loadedModules (dep_items_of c)
      (dep_items_hashable_of_shaped hsh.1)
    cases r with
    | none =>
      obtain ⟨st1, rem0, hlp⟩ := ih hrest st
      exact ⟨st1, (n, c) :: rem0, by
        simp only [load_pass, hitems, hr, hlp]⟩
    | some deps =>
      obtain ⟨st1, rem0, hlp⟩ := ih hrest
        (load_module env st n (class_of c) deps (config_of c))
      exact ⟨st1, rem0, by
        simp only [load_pass, hitems, hr, hlp]⟩

theorem load_pass_untouched {env : LoadEnv} {st st1 : LoaderState}
    {l rem : List (String × PyDict)}
    (h : load_pass env st l = Except.ok (st1, rem)) :
    ∀ n, n ∉ keysOf l →
      alookup st1.loadedModules n = alookup st.loadedModules n := by
  induction l generalizing st rem with
  | nil =>
    intro n hn
    obtain ⟨h1, -⟩ := load_pass_nil_inv h
    rw [h1]
  | cons p rest ih =>
    intro n hn
    obtain ⟨n0, c⟩ := p
    simp only [keysOf, List.map_cons, List.mem_cons] at hn
    push_neg at hn
    obtain ⟨items, -, hcase⟩ := load_pass_cons_inv h
    rcases hcase with ⟨-, rem0, hlp, -⟩ | ⟨deps, -, hlp⟩
    · exact ih hlp n (by simpa [keysOf] using hn.2)
    · rw [ih hlp n (by simpa [keysOf] using hn.2)]
      exact load_module_lookup_other hn.1

theorem load_pass_fresh_rem {env : LoadEnv} {st st1 : LoaderState}
    {l rem : List (String × PyDict)}
    (hnd : (keysOf l).Nodup)
    (hfresh : ∀ p ∈ l, alookup st.loadedModules p.1 = Option.none)
    (h : load_pass env st l = Except.ok (st1, rem)) :
    ∀ p ∈ rem, alookup st1.loadedModules p.1 = Option.none := by
  induction l generalizing st rem with
  | nil =>
    obtain ⟨-, h2⟩ := load_pass_nil_inv h
    subst h2
    intro p hp
    simp at hp
  | cons q rest ih =>
    obtain ⟨n0, c⟩ := q
    simp only [keysOf, List.map_cons, List.nodup_cons] at hnd
    obtain ⟨items, -, hcase⟩ := load_pass_cons_inv h
    rcases hcase with ⟨-, rem0, hlp, hrem⟩ | ⟨deps, -, hlp⟩
    · intro p hp
      subst hrem
      rcases List.mem_cons.mp hp with h1 | h1
      · subst h1
        rw [load_pass_untouched hlp n0 (by simpa [keysOf] using hnd.1)]
        exact hfresh (n0, c) (List.mem_cons_self _ _)
      · exact ih hnd.2 (fun q hq => hfresh q (List.mem_cons_of_mem _ hq)) hlp p h1
    · intro p hp
      have hfresh2 : ∀ q ∈ rest,
          alookup (load_module env st n0 (class_of c) deps
            (config_of c)).loadedModules q.1 = Option.none := by
        intro q hq
        have hne : q.1 ≠ n0 := by
          intro he
          exact hnd.1 (he ▸ mem_keysOf_of_mem hq)
        rw [load_module_lookup_other hne]
        exact hfresh q (List.mem_cons_of_mem _ hq)
      exact ih hnd.2 hfresh2 hlp p hp

theorem load_pass_mono {env : LoadEnv} {st st1 : LoaderState}
    {l rem : List (String × PyDict)}
    (hnd : (keysOf l).Nodup)
    (hfresh : ∀ p ∈ l, alookup st.loadedModules p.1 = Option.none)
    (h : load_pass env st l = Except.ok (st1, rem)) :
    ∀ n m, alookup st.loadedModules n = some m →
      alookup st1.loadedModules n = some m := by
  induction l generalizing st rem with
  | nil =>
    intro n m hm
    obtain ⟨h1, -⟩ := load_pass_nil_inv h
    rw [h1]
    exact hm
  | cons q rest ih =>
    intro n m hm
    obtain ⟨n0, c⟩ := q
    simp only [keysOf, List.map_cons, List.nodup_cons] at hnd
    obtain ⟨items, -, hcase⟩ := load_pass_cons_inv h
    have hne : n ≠ n0 := by
      intro he
      rw [he, hfresh (n0, c) (List.mem_cons_self _ _)] at hm
      exact Option.noConfusion hm
    rcases hcase with ⟨-, rem0, hlp, -⟩ | ⟨deps, -, hlp⟩
    · exact ih hnd.2 (fun q hq => hfresh q (List.mem_cons_of_mem _ hq)) hlp n m hm
    · have hfresh2 : ∀ q ∈ rest,
          alookup (load_module env st n0 (class_of c) deps
            (config_of c)).loadedModules q.1 = Option.none := by
        intro q hq
        have hne2 : q.1 ≠ n0 := by
          intro he
          exact hnd.1 (he ▸ mem_keysOf_of_mem hq)
        rw [load_module_lookup_other hne2]
        exact hfresh q (List.mem_cons_of_mem _ hq)
      refine ih hnd.2 hfresh2 hlp n m ?_
      rw [load_module_lookup_other hne]
      exact hm

theorem load_pass_consistency {env : LoadEnv} {st st1 : LoaderState}
    {l rem : List (String × PyDict)}
    (hnd : (keysOf l).Nodup)
    (hfresh : ∀ p ∈ l, alookup st.loadedModules p.1 = Option.none)
    (h : load_pass env st l = Except.ok (st1, rem)) :
    ∀ n m, alookup st1.loadedModules n = some m →
      alookup st.loadedModules n = some m ∨ GoodEntry env l st1.loadedModules n m := by
  induction l generalizing st rem with
  | nil =>
    intro n m hm
    obtain ⟨h1, -⟩ := load_pass_nil_inv h
    rw [h1] at hm
    exact Or.inl hm
  | cons q rest ih =>
    intro n m hm
    obtain ⟨n0, c⟩ := q
    simp only [keysOf, List.map_cons, List.nodup_cons] at hnd
    obtain ⟨items, hgi, hcase⟩ := load_pass_cons_inv h
    have hitems : items = dep_items_of c := get_dep_items_ok_inv hgi
    have hlift : ∀ m2 : ModaiModule, GoodEntry env rest st1.loadedModules n m2 →
        GoodEntry env ((n0, c) :: rest) st1.loadedModules n m2 := by
      intro m2 hge
      obtain ⟨c2, deps2, hc2, hcmd2, hbody2⟩ := hge
      have hne : n0 ≠ n := by
        intro he
        subst he
        exact hnd.1 (mem_keysOf_of_mem (alookup_eq_some_mem hc2))
      exact ⟨c2, deps2, by simp [alookup, hne, hc2], hcmd2, hbody2⟩
    rcases hcase with ⟨-, rem0, hlp, -⟩ | ⟨deps, hcmd, hlp⟩
    · rcases ih hnd.2 (fun q hq => hfresh q (List.mem_cons_of_mem _ hq)) hlp n m hm with
        h1 | h1
      · exact Or.inl h1
      · exact Or.inr (hlift m h1)
    · have hfresh2 : ∀ q ∈ rest,
          alookup (load_module env st n0 (class_of c) deps
            (config_of c)).loadedModules q.1 = Option.none := by
        intro q hq
        have hne2 : q.1 ≠ n0 := by
          intro he
          exact hnd.1 (he ▸ mem_keysOf_of_mem hq)
        rw [load_module_lookup_other hne2]
        exact hfresh q (List.mem_cons_of_mem _ hq)
      rcases ih hnd.2 hfresh2 hlp n m hm with h1 | h1
      · by_cases hn : n = n0
        · subst hn
          cases hb : load_module_body env n (class_of c) deps (config_of c) with
          | error e =>
            rw [load_module_of_error hb] at h1
            rw [hfresh (n, c) (List.mem_cons_self _ _)] at h1
            exact Option.noConfusion h1
          | ok m? =>
            cases m? with
            | none =>
              rw [load_module_of_silent hb] at h1
              rw [hfresh (n, c) (List.mem_cons_self _ _)] at h1
              exact Option.noConfusion h1
            | some m0 =>
              rw [load_module_of_ok hb] at h1
              simp only at h1
              rw [alookup_dictSet_self] at h1
              have hm0 : m0 = m := Option.some.inj h1
              subst hm0
              refine Or.inr ⟨c, deps, by simp [alookup], ?_, hb⟩
              rw [← hitems]
              refine cmd_extend hcmd ?_
              intro k v hkv
              have hkne : k ≠ n := by
                intro he
                rw [he, hfresh (n, c) (List.mem_cons_self _ _)] at hkv
                exact Option.noConfusion hkv
              refine load_pass_mono hnd.2 hfresh2 hlp k v ?_
              rw [load_module_lookup_other hkne]
              exact hkv
        · rw [load_module_lookup_other hn] at h1
          exact Or.inl h1
      · exact Or.inr (hlift m h1)

theorem load_pass_processed {env : LoadEnv} {st st1 : LoaderState}
    {l rem : List (String × PyDict)}
    (hnd : (keysOf l).Nodup)
    (hfresh : ∀ p ∈ l, alookup st.loadedModules p.1 = Option.none)
    (h : load_pass env st l = Except.ok (st1, rem)) :
    ∀ n c, alookup l n = some c → n ∉ keysOf rem →
      ∃ deps1,
        construct_module_dependencies st1.loadedModules (dep_items_of c) =
          Except.ok (some deps1) ∧
        ∀ m, load_module_body env n (class_of c) deps1 (config_of c) =
            Except.ok (some m) →
          alookup st1.loadedModules n = some m := by
  induction l generalizing st rem with
  | nil =>
    intro n c hc
    simp [alookup] at hc
  | cons q rest ih =>
    intro n c hc hnrem
    obtain ⟨n0, c0⟩ := q
    simp only [keysOf, List.map_cons, List.nodup_cons] at hnd
    obtain ⟨items, hgi, hcase⟩ := load_pass_cons_inv h
    have hitems : items = dep_items_of c0 := get_dep_items_ok_inv hgi
    by_cases hn : n0 = n
    · subst hn
      simp [alookup] at hc
      subst hc
      rcases hcase with ⟨-, rem0, -, hrem⟩ | ⟨deps, hcmd, hlp⟩
      · exfalso
        subst hrem
        exact hnrem (by simp [keysOf])
      · have hfresh2 : ∀ q ∈ rest,
            alookup (load_module env st n0 (class_of c0) deps
              (config_of c0)).loadedModules q.1 = Option.none := by
          intro q hq
          have hne2 : q.1 ≠ n0 := by
            intro he
            exact hnd.1 (he ▸ mem_keysOf_of_mem hq)
          rw [load_module_lookup_other hne2]
          exact hfresh q (List.mem_cons_of_mem _ hq)
        refine ⟨deps, ?_, ?_⟩
        · rw [← hitems]
          refine cmd_extend hcmd ?_
          intro k v hkv
          have hkne : k ≠ n0 := by
            intro he
            rw [he, hfresh (n0, c0) (List.mem_cons_self _ _)] at hkv
            exact Option.noConfusion hkv
          refine load_pass_mono hnd.2 hfresh2 hlp k v ?_
          rw [load_module_lookup_other hkne]
          exact hkv
        · intro m hb
          refine load_pass_mono hnd.2 hfresh2 hlp n0 m ?_
          rw [load_module_of_ok hb]
          simp only
          exact alookup_dictSet_self
    · simp only [alookup, if_neg hn] at hc
      rcases hcase with ⟨-, rem0, hlp, hrem⟩ | ⟨deps, hcmd, hlp⟩
      · subst hrem
        simp only [keysOf, List.map_cons, List.mem_cons] at hnrem
        push_neg at hnrem
        exact ih hnd.2 (fun q hq => hfresh q (List.mem_cons_of_mem _ hq)) hlp n c hc
          (by simpa [keysOf] using hnrem.2)
      · have hfresh2 : ∀ q ∈ rest,
            alookup (load_module env st n0 (class_of c0) deps
              (config_of c0)).loadedModules q.1 = Option.none := by
          intro q hq
          have hne2 : q.1 ≠ n0 := by
            intro he
            exact hnd.1 (he ▸ mem_keysOf_of_mem hq)
          rw [load_module_lookup_other hne2]
          exact hfresh q (List.mem_cons_of_mem _ hq)
        exact ih hnd.2 hfresh2 hlp n c hc hnrem

theorem load_pass_stall {env : LoadEnv} {st st1 : LoaderState}
    {l rem : List (String × PyDict)}
    (h : load_pass env st l = Except.ok (st1, rem)) (hrem : rem = l) :
    st1 = st ∧
      ∀ p ∈ l, construct_module_dependencies st.loadedModules (dep_items_of p.2) =
        Except.ok Option.none := by
  induction l generalizing st rem with
  | nil =>
    obtain ⟨h1, -⟩ := load_pass_nil_inv h
    exact ⟨h1, by simp⟩
  | cons q rest ih =>
    obtain ⟨n0, c0⟩ := q
    obtain ⟨items, hgi, hcase⟩ := load_pass_cons_inv h
    have hitems : items = dep_items_of c0 := get_dep_items_ok_inv hgi
    rcases hcase with ⟨hcmd, rem0, hlp, hrem0⟩ | ⟨deps, hcmd, hlp⟩
    · subst hrem
      have hr0 : rem0 = rest := by
        have := hrem0
        simp only [List.cons.injEq] at this
        exact this.2.symm
      obtain ⟨h1, h2⟩ := ih hlp hr0
      refine ⟨h1, ?_⟩
      intro p hp
      rcases List.mem_cons.mp hp with hh | hh
      · subst hh
        rw [← hitems]
        exact hcmd
      · exact h2 p hh
    · exfalso
      have hsub := load_pass_rem_sublist hlp
      have : rem.length ≤ rest.length := hsub.length_le
      rw [hrem] at this
      simp at this

/-! ### Unfolding equations for the resolution loop -/

theorem lmwd_eq_error {env : LoadEnv} {st : LoaderState} {l : List (String × PyDict)}
    {e : String} (h : load_pass env st l = Except.error e) :
    load_modules_with_dependencies env st l = Except.error e := by
  rw [load_modules_with_dependencies]
  split
  · rename_i e2 he
    rw [h] at he
    simp only [Except.error.injEq] at he
    rw [he]
  · rename_i st2 rem2 he
    rw [h] at he
    exact absurd he (by simp)

theorem lmwd_eq_done {env : LoadEnv} {st st1 : LoaderState} {l : List (String × PyDict)}
    (h : load_pass env st l = Except.ok (st1, [])) :
    load_modules_with_dependencies env st l = Except.ok st1 := by
  rw [load_modules_with_dependencies]
  split
  · rename_i e he
    rw [h] at he
    exact absurd he (by simp)
  · rename_i st2 rem2 he
    rw [h] at he
    simp only [Except.ok.injEq, Prod.mk.injEq] at he
    obtain ⟨h1, h2⟩ := he
    subst h1
    subst h2
    simp

theorem lmwd_eq_stuck {env : LoadEnv} {st st1 : LoaderState}
    {l rem : List (String × PyDict)}
    (h : load_pass env st l = Except.ok (st1, rem)) (hne : rem ≠ [])
    (hlen : rem.length = l.length) :
    load_modules_with_dependencies env st l =
      Except.ok { st1 with
        log := st1.log ++ [⟨LogLevel.error, unresolvable_msg rem⟩] } := by
  rw [load_modules_with_dependencies]
  split
  · rename_i e he
    rw [h] at he
    exact absurd he (by simp)
  · rename_i st2 rem2 he
    rw [h] at he
    simp only [Except.ok.injEq, Prod.mk.injEq] at he
    obtain ⟨h1, h2⟩ := he
    subst h1
    subst h2
    rw [if_pos ⟨List.length_pos.mpr hne, hlen⟩]

theorem lmwd_eq_recurse {env : LoadEnv} {st st1 : LoaderState}
    {l rem : List (String × PyDict)}
    (h : load_pass env st l = Except.ok (st1, rem)) (hne : rem ≠ [])
    (hlen : rem.length ≠ l.length) :
    load_modules_with_dependencies env st l =
      load_modules_with_dependencies env st1 rem := by
  rw [load_modules_with_dependencies]
  split
  · rename_i e he
    rw [h] at he
    exact absurd he (by simp)
  · rename_i st2 rem2 he
    rw [h] at he
    simp only [Except.ok.injEq, Prod.mk.injEq] at he
    obtain ⟨h1, h2⟩ := he
    subst h1
    subst h2
    rw [if_neg (by intro hc; exact hlen hc.2), if_pos (List.length_pos.mpr hne)]

/-! ### Facts about full runs of the resolution loop -/

theorem entries_shaped_sublist {l1 l2 : List (String × PyDict)}
    (hs : l1.Sublist l2) (h : entries_shaped l2 = true) : entries_shaped l1 = true := by
  simp only [entries_shaped, List.all_eq_true] at h ⊢
  intro p hp
  exact h p (hs.subset hp)

theorem keysOf_nodup_sublist {α : Type} {l1 l2 : List (String × α)}
    (hs : l1.Sublist l2) (h : (keysOf l2).Nodup) : (keysOf l1).Nodup :=
  List.Nodup.sublist (hs.map Prod.fst) h

theorem mem_keysOf_sublist {α : Type} {l1 l2 : List (String × α)} {n : String}
    (hs : l1.Sublist l2) (h : n ∈ keysOf l1) : n ∈ keysOf l2 :=
  (hs.map Prod.fst).subset h

theorem alookup_isSome_of_mem_keys {α : Type} {l : List (String × α)} {n : String}
    (h : n ∈ keysOf l) : ∃ v, alookup l n = some v := by
  cases hv : alookup l n with
  | none => exact absurd h (alookup_eq_none_iff.mp hv)
  | some v => exact ⟨v, rfl⟩

theorem GoodEntry_extend {env : LoadEnv} {cfg : List (String × PyDict)}
    {reg reg2 : List (String × ModaiModule)} {n : String} {m : ModaiModule}
    (h : GoodEntry env cfg reg n m)
    (hsub : ∀ k v, alookup reg k = some v → alookup reg2 k = some v) :
    GoodEntry env cfg reg2 n m := by
  obtain ⟨c, deps, hc, hcmd, hbody⟩ := h
  exact ⟨c, deps, hc, cmd_extend hcmd hsub, hbody⟩

theorem GoodEntry_of_sublist {env : LoadEnv} {cfg1 cfg2 : List (String × PyDict)}
    {reg : List (String × ModaiModule)} {n : String} {m : ModaiModule}
    (h : GoodEntry env cfg1 reg n m) (hs : cfg1.Sublist cfg2)
    (hnd : (keysOf cfg2).Nodup) : GoodEntry env cfg2 reg n m := by
  obtain ⟨c, deps, hc, hcmd, hbody⟩ := h
  exact ⟨c, deps,
    alookup_eq_some_of_mem_nodup hnd (hs.subset (alookup_eq_some_mem hc)), hcmd, hbody⟩

theorem lmwd_ok_of_shaped {env : LoadEnv} :
    ∀ (N : Nat) (l : List (String × PyDict)) (st : LoaderState), l.length ≤ N →
      entries_shaped l = true →
      ∃ st', load_modules_with_dependencies env st l = Except.ok st' := by
  intro N
  induction N with
  | zero =>
    intro l st hlen hsh
    have hl : l = [] := List.length_eq_zero.mp (Nat.le_zero.mp hlen)
    subst hl
    exact ⟨st, lmwd_eq_done rfl⟩
  | succ N ih =>
    intro l st hlen hsh
    obtain ⟨st1, rem, hp⟩ := load_pass_ok_of_shaped hsh st
    by_cases hne : rem = []
    · subst hne
      exact ⟨st1, lmwd_eq_done hp⟩
    · by_cases hl : rem.length = l.length
      · exact ⟨_, lmwd_eq_stuck hp hne hl⟩
      · have hsub := load_pass_rem_sublist hp
        have hlt : rem.length < l.length := Nat.lt_of_le_of_ne hsub.length_le hl
        obtain ⟨st', h'⟩ := ih rem st1 (by omega) (entries_shaped_sublist hsub hsh)
        exact ⟨st', (lmwd_eq_recurse hp hne hl).trans h'⟩

theorem lmwd_mono {env : LoadEnv} :
    ∀ (N : Nat) (l : List (String × PyDict)) (st st' : LoaderState), l.length ≤ N →
      (keysOf l).Nodup →
      (∀ p ∈ l, alookup st.loadedModules p.1 = Option.none) →
      load_modules_with_dependencies env st l = Except.ok st' →
      ∀ n m, alookup st.loadedModules n = some m →
        alookup st'.loadedModules n = some m := by
  intro N
  induction N with
  | zero =>
    intro l st st' hlen hnd hfresh h n m hm
    have hl : l = [] := List.length_eq_zero.mp (Nat.le_zero.mp hlen)
    subst hl
    rw [lmwd_eq_done (show load_pass env st [] = Except.ok (st, []) from rfl)] at h
    simp only [Except.ok.injEq] at h
    rw [← h]
    exact hm
  | succ N ih =>
    intro l st st' hlen hnd hfresh h n m hm
    cases hp : load_pass env st l with
    | error e =>
      rw [lmwd_eq_error hp] at h
      exact absurd h (by simp)
    | ok pr =>
      obtain ⟨st1, rem⟩ := pr
      by_cases hne : rem = []
      · subst hne
        rw [lmwd_eq_done hp] at h
        simp only [Except.ok.injEq] at h
        rw [← h]
        exact load_pass_mono hnd hfresh hp n m hm
      · by_cases hl : rem.length = l.length
        · rw [lmwd_eq_stuck hp hne hl] at h
          simp only [Except.ok.injEq] at h
          rw [← h]
          exact load_pass_mono hnd hfresh hp n m hm
        · rw [lmwd_eq_recurse hp hne hl] at h
          have hsub := load_pass_rem_sublist hp
          have hlt : rem.length < l.length := Nat.lt_of_le_of_ne hsub.length_le hl
          exact ih rem st1 st' (by omega) (keysOf_nodup_sublist hsub hnd)
            (load_pass_fresh_rem hnd hfresh hp) h n m
            (load_pass_mono hnd hfresh hp n m hm)

theorem lmwd_untouched {env : LoadEnv} :
    ∀ (N : Nat) (l : List (String × PyDict)) (st st' : LoaderState), l.length ≤ N →
      load_modules_with_dependencies env st l = Except.ok st' →
      ∀ n, n ∉ keysOf l →
        alookup st'.loadedModules n = alookup st.loadedModules n := by
  intro N
  induction N with
  | zero =>
    intro l st st' hlen h n hn
    have hl : l = [] := List.length_eq_zero.mp (Nat.le_zero.mp hlen)
    subst hl
    rw [lmwd_eq_done (show load_pass env st [] = Except.ok (st, []) from rfl)] at h
    simp only [Except.ok.injEq] at h
    rw [← h]
  | succ N ih =>
    intro l st st' hlen h n hn
    cases hp : load_pass env st l with
    | error e =>
      rw [lmwd_eq_error hp] at h
      exact absurd h (by simp)
    | ok pr =>
      obtain ⟨st1, rem⟩ := pr
      by_cases hne : rem = []
      · subst hne
        rw [lmwd_eq_done hp] at h
        simp only [Except.ok.injEq] at h
        rw [← h]
        exact load_pass_untouched hp n hn
      · by_cases hl : rem.length = l.length
        · rw [lmwd_eq_stuck hp hne hl] at h
          simp only [Except.ok.injEq] at h
          rw [← h]
          exact load_pass_untouched hp n hn
        · rw [lmwd_eq_recurse hp hne hl] at h
          have hsub := load_pass_rem_sublist hp
          have hlt : rem.length < l.length :=
            Nat.lt_of_le_of_ne hsub.length_le hl
          have hn2 : n ∉ keysOf rem := fun hc => hn (mem_keysOf_sublist hsub hc)
          rw [ih rem st1 st' (by omega) h n hn2]
          exact load_pass_untouched hp n hn

theorem lmwd_consistency {env : LoadEnv} :
    ∀ (N : Nat) (l : List (String × PyDict)) (st st' : LoaderState), l.length ≤ N →
      (keysOf l).Nodup →
      (∀ p ∈ l, alookup st.loadedModules p.1 = Option.none) →
      load_modules_with_dependencies env st l = Except.ok st' →
      ∀ n m, alookup st'.loadedModules n = some m →
        alookup st.loadedModules n = some m ∨
          GoodEntry env l st'.loadedModules n m := by
  intro N
  induction N with
  | zero =>
    intro l st st' hlen hnd hfresh h n m hm
    have hl : l = [] := List.length_eq_zero.mp (Nat.le_zero.mp hlen)
    subst hl
    rw [lmwd_eq_done (show load_pass env st [] = Except.ok (st, []) from rfl)] at h
    simp only [Except.ok.injEq] at h
    rw [← h] at hm
    exact Or.inl hm
  | succ N ih =>
    intro l st st' hlen hnd hfresh h n m hm
    cases hp : load_pass env st l with
    | error e =>
      rw [lmwd_eq_error hp] at h
      exact absurd h (by simp)
    | ok pr =>
      obtain ⟨st1, rem⟩ := pr
      by_cases hne : rem = []
      · subst hne
        rw [lmwd_eq_done hp] at h
        simp only [Except.ok.injEq] at h
        subst h
        exact load_pass_consistency hnd hfresh hp n m hm
      · by_cases hl : rem.length = l.length
        · rw [lmwd_eq_stuck hp hne hl] at h
          simp only [Except.ok.injEq] at h
          have hreg : st'.loadedModules = st1.loadedModules := by
            rw [← h]
          rw [hreg] at hm ⊢
          exact load_pass_consistency hnd hfresh hp n m hm
        · rw [lmwd_eq_recurse hp hne hl] at h
          have hsub := load_pass_rem_sublist hp
          have hlt : rem.length < l.length := Nat.lt_of_le_of_ne hsub.length_le hl
          have hnd2 := keysOf_nodup_sublist hsub hnd
          have hfresh2 := load_pass_fresh_rem hnd hfresh hp
          have hmono2 : ∀ k v, alookup st1.loadedModules k = some v →
              alookup st'.loadedModules k = some v :=
            fun k v hv => lmwd_mono rem.length rem st1 st' le_rfl hnd2 hfresh2 h k v hv
          rcases ih rem st1 st' (by omega) hnd2 hfresh2 h n m hm with h1 | h1
          · rcases load_pass_consistency hnd hfresh hp n m h1 with h2 | h2
            · exact Or.inl h2
            · exact Or.inr (GoodEntry_extend h2 hmono2)
          · exact Or.inr (GoodEntry_of_sublist h1 hsub hnd)

theorem lmwd_saturated {env : LoadEnv} :
    ∀ (N : Nat) (l : List (String × PyDict)) (st st' : LoaderState), l.length ≤ N →
      (keysOf l).Nodup →
      (∀ p ∈ l, alookup st.loadedModules p.1 = Option.none) →
      load_modules_with_dependencies env st l = Except.ok st' →
      Saturated env l st'.loadedModules := by
  intro N
  induction N with
  | zero =>
    intro l st st' hlen hnd hfresh h
    have hl : l = [] := List.length_eq_zero.mp (Nat.le_zero.mp hlen)
    subst hl
    intro n c deps m hc
    simp [alookup] at hc
  | succ N ih =>
    intro l st st' hlen hnd hfresh h
    cases hp : load_pass env st l with
    | error e =>
      rw [lmwd_eq_error hp] at h
      exact absurd h (by simp)
    | ok pr =>
      obtain ⟨st1, rem⟩ := pr
      by_cases hne : rem = []
      · subst hne
        rw [lmwd_eq_done hp] at h
        simp only [Except.ok.injEq] at h
        subst h
        intro n c deps m hc hcmd hbody
        obtain ⟨deps1, hcmd1, hload⟩ :=
          load_pass_processed hnd hfresh hp n c hc (by simp [keysOf])
        have hdeps : deps1 = deps := by
          rw [hcmd] at hcmd1
          simpa using hcmd1.symm
        subst hdeps
        exact hload m hbody
      · by_cases hl : rem.length = l.length
        · have hreml : rem = l := (load_pass_rem_sublist hp).eq_of_length hl
          obtain ⟨hst, hstall⟩ := load_pass_stall hp hreml
          rw [lmwd_eq_stuck hp hne hl] at h
          simp only [Except.ok.injEq] at h
          have hreg : st'.loadedModules = st.loadedModules := by
            rw [← h, hst]
          intro n c deps m hc hcmd hbody
          exfalso
          have hmem := alookup_eq_some_mem hc
          have := hstall (n, c) hmem
          rw [hreg] at hcmd
          rw [this] at hcmd
          simp at hcmd
        · rw [lmwd_eq_recurse hp hne hl] at h
          have hsub := load_pass_rem_sublist hp
          have hlt : rem.length < l.length := Nat.lt_of_le_of_ne hsub.length_le hl
          have hnd2 := keysOf_nodup_sublist hsub hnd
          have hfresh2 := load_pass_fresh_rem hnd hfresh hp
          have hmono2 : ∀ k v, alookup st1.loadedModules k = some v →
              alookup st'.loadedModules k = some v :=
            fun k v hv => lmwd_mono rem.length rem st1 st' le_rfl hnd2 hfresh2 h k v hv
          intro n c deps m hc hcmd hbody
          by_cases hnk : n ∈ keysOf rem
          · obtain ⟨c2, hc2⟩ := alookup_isSome_of_mem_keys hnk
            have hc2mem : (n, c2) ∈ l := hsub.subset (alookup_eq_some_mem hc2)
            have : alookup l n = some c2 := alookup_eq_some_of_mem_nodup hnd hc2mem
            rw [hc] at this
            have hcc : c2 = c := by simpa using this.symm
            subst hcc
            exact ih rem st1 st' (by omega) hnd2 hfresh2 h n c2 deps m hc2 hcmd hbody
          · obtain ⟨deps1, hcmd1, hload⟩ :=
              load_pass_processed hnd hfresh hp n c hc hnk
            have hcmd2 : construct_module_dependencies st'.loadedModules
                (dep_items_of c) = Except.ok (some deps1) := cmd_extend hcmd1 hmono2
            have hdeps : deps1 = deps := by
              rw [hcmd] at hcmd2
              simpa using hcmd2.symm
            subst hdeps
            exact hmono2 n m (hload m hbody)

/-! ### Uniqueness of the resolved registry -/

theorem cmd_transfer {reg reg2 : List (String × ModaiModule)}
    {items : List (String × PyVal)} {deps : List (String × ModaiModule)}
    (h : construct_module_dependencies reg items = Except.ok (some deps))
    (htr : ∀ p ∈ deps, ∀ dn : String,
      alookup reg dn = some p.2 → alookup reg2 dn = some p.2) :
    construct_module_dependencies reg2 items = Except.ok (some deps) := by
  induction items generalizing deps with
  | nil =>
    simp only [construct_module_dependencies, Except.ok.injEq, Option.some.injEq] at h
    rw [← h]
    rfl
  | cons q rest ih =>
    obtain ⟨dk, dv⟩ := q
    cases dv with
    | dict d => simp [construct_module_dependencies] at h
    | str dn =>
      cases hl : alookup reg dn with
      | none => simp [construct_module_dependencies, hl] at h
      | some m =>
        simp only [construct_module_dependencies, hl] at h
        cases hr : construct_module_dependencies reg rest with
        | error e => simp [hr] at h
        | ok r0 =>
          cases r0 with
          | none => simp [hr] at h
          | some deps0 =>
            simp only [hr, Except.ok.injEq, Option.some.injEq] at h
            have hdeps : deps = (dk, m) :: deps0 := h.symm
            subst hdeps
            have hm2 : alookup reg2 dn = some m :=
              htr (dk, m) (List.mem_cons_self _ _) dn hl
            have hrec := ih hr (fun p hp => htr p (List.mem_cons_of_mem _ hp))
            simp [construct_module_dependencies, hm2, hrec]
    | none => simp [construct_module_dependencies] at h
    | bool b => simp [construct_module_dependencies] at h
    | int n => simp [construct_module_dependencies] at h

theorem dep_size_lt {cls : String} {deps : List (String × ModaiModule)} {cfgv : PyVal}
    {p : String × ModaiModule} (hp : p ∈ deps) :
    sizeOf p.2 < sizeOf (ModaiModule.mk cls deps cfgv) := by
  have h1 : sizeOf p < sizeOf deps := List.sizeOf_lt_of_mem hp
  obtain ⟨a, b⟩ := p
  simp only [Prod.mk.sizeOf_spec] at h1
  simp only [ModaiModule.mk.sizeOf_spec]
  omega

theorem registry_unique {env : LoadEnv} {cfg1 cfg2 : List (String × PyDict)}
    {r1 r2 : List (String × ModaiModule)}
    (hcfg : ∀ k, alookup cfg1 k = alookup cfg2 k)
    (hcons : ∀ n m, alookup r1 n = some m → GoodEntry env cfg1 r1 n m)
    (hsat : Saturated env cfg2 r2) :
    ∀ n m, alookup r1 n = some m → alookup r2 n = some m := by
  suffices hs : ∀ (s : Nat) (m : ModaiModule), sizeOf m ≤ s →
      ∀ n, alookup r1 n = some m → alookup r2 n = some m by
    intro n m hm
    exact hs (sizeOf m) m le_rfl n hm
  intro s
  induction s with
  | zero =>
    intro m hsz
    exfalso
    cases m with
    | mk cls deps cfgv =>
      simp only [ModaiModule.mk.sizeOf_spec] at hsz
      omega
  | succ s ih =>
    intro m hsz n hm
    obtain ⟨c, deps, hc, hcmd, hbody⟩ := hcons n m hm
    obtain ⟨cls, -, hmeq⟩ := body_ok_inv hbody
    have htr : ∀ p ∈ deps, ∀ dn : String,
        alookup r1 dn = some p.2 → alookup r2 dn = some p.2 := by
      intro p hp dn hdn
      refine ih p.2 ?_ dn hdn
      have := @dep_size_lt cls deps (config_of c) p hp
      rw [← hmeq] at this
      omega
    have hcmd2 := cmd_transfer hcmd htr
    have hc2 : alookup cfg2 n = some c := by
      rw [← hcfg n]
      exact hc
    exact hsat n c deps m hc2 hcmd2 hbody

theorem registries_agree {env : LoadEnv} {cfg1 cfg2 : List (String × PyDict)}
    {r1 r2 : List (String × ModaiModule)}
    (hcfg : ∀ k, alookup cfg1 k = alookup cfg2 k)
    (hcons1 : ∀ n m, alookup r1 n = some m → GoodEntry env cfg1 r1 n m)
    (hsat1 : Saturated env cfg1 r1)
    (hcons2 : ∀ n m, alookup r2 n = some m → GoodEntry env cfg2 r2 n m)
    (hsat2 : Saturated env cfg2 r2) :
    ∀ n, alookup r1 n = alookup r2 n := by
  intro n
  cases h1 : alookup r1 n with
  | some m => exact (registry_unique hcfg hcons1 hsat2 n m h1).symm
  | none =>
    cases h2 : alookup r2 n with
    | none => rfl
    | some m =>
      exfalso
      have := registry_unique (fun k => (hcfg k).symm) hcons2 hsat1 n m h2
      rw [h1] at this
      exact Option.noConfusion this

/-! ### Lemmas about normalization and the disabled filter -/

theorem entry_shaped_nil : entry_shaped ([] : PyDict) = true := rfl

theorem keysOf_normalize (mc : List (String × PyVal)) :
    keysOf (normalize_modules mc) = keysOf mc := by
  simp [normalize_modules, keysOf, List.map_map]

theorem normalize_vals_shaped {mc : List (String × PyVal)}
    (h : mc.all (fun p => module_val_shaped p.2) = true) :
    ∀ p ∈ normalize_modules mc, ∃ d, p.2 = PyVal.dict d ∧ entry_shaped d = true := by
  intro p hp
  simp only [normalize_modules, List.mem_map] at hp
  obtain ⟨q, hq, hpq⟩ := hp
  obtain ⟨k, v⟩ := q
  subst hpq
  simp only [List.all_eq_true] at h
  have hq2 := h (k, v) hq
  simp only at hq2
  unfold module_val_shaped at hq2
  by_cases ht : truthy v = true
  · rw [if_pos ht] at hq2
    cases v with
    | dict d => exact ⟨d, by simp [ht], hq2⟩
    | none => simp [truthy] at ht
    | bool b => simp at hq2
    | int n => simp at hq2
    | str s => simp at hq2
  · have ht2 : truthy v = false := by simpa using ht
    exact ⟨[], by simp [ht2], entry_shaped_nil⟩

theorem mem_enabled_filter_iff {mcn : List (String × PyVal)} {k : String} {c : PyDict} :
    (k, c) ∈ enabled_filter mcn ↔
      ((k, PyVal.dict c) ∈ mcn ∧
        isFalseV (dictGetD c "enabled" (PyVal.bool true)) = false) := by
  unfold enabled_filter
  rw [List.mem_filterMap]
  constructor
  · rintro ⟨⟨k0, v0⟩, hmem, hf⟩
    cases v0 with
    | dict d =>
      simp only at hf
      by_cases hd : isFalseV (dictGetD d "enabled" (PyVal.bool true)) = true
      · rw [if_pos hd] at hf
        exact absurd hf (by simp)
      · have hd2 : isFalseV (dictGetD d "enabled" (PyVal.bool true)) = false := by
          simpa using hd
        rw [if_neg (by simp [hd2])] at hf
        simp only [Option.some.injEq, Prod.mk.injEq] at hf
        obtain ⟨h1, h2⟩ := hf
        subst h1
        subst h2
        exact ⟨hmem, hd2⟩
    | none => simp at hf
    | bool b => simp at hf
    | int n => simp at hf
    | str s => simp at hf
  · rintro ⟨hmem, hf⟩
    exact ⟨(k, PyVal.dict c), hmem, by simp [hf]⟩

theorem keysOf_enabled_filter_sublist (mcn : List (String × PyVal)) :
    (keysOf (enabled_filter mcn)).Sublist (keysOf mcn) := by
  induction mcn with
  | nil => simp [enabled_filter, keysOf]
  | cons p rest ih =>
    obtain ⟨k, v⟩ := p
    cases v with
    | dict d =>
      by_cases hd : isFalseV (dictGetD d "enabled" (PyVal.bool true)) = true
      · simp only [enabled_filter, List.filterMap_cons, hd, if_true, keysOf,
          List.map_cons] at ih ⊢
        exact ih.cons _
      · simp only [enabled_filter, List.filterMap_cons, hd, Bool.false_eq_true,
          if_false, keysOf, List.map_cons] at ih ⊢
        exact ih.cons₂ _
    | none =>
      simp only [enabled_filter, List.filterMap_cons, keysOf, List.map_cons] at ih ⊢
      exact ih.cons _
    | bool b =>
      simp only [enabled_filter, List.filterMap_cons, keysOf, List.map_cons] at ih ⊢
      exact ih.cons _
    | int n =>
      simp only [enabled_filter, List.filterMap_cons, keysOf, List.map_cons] at ih ⊢
      exact ih.cons _
    | str s =>
      simp only [enabled_filter, List.filterMap_cons, keysOf, List.map_cons] at ih ⊢
      exact ih.cons _

theorem enabled_filter_shaped {mcn : List (String × PyVal)}
    (h : ∀ p ∈ mcn, ∃ d, p.2 = PyVal.dict d ∧ entry_shaped d = true) :
    entries_shaped (enabled_filter mcn) = true := by
  simp only [entries_shaped, List.all_eq_true]
  intro p hp
  obtain ⟨k, c⟩ := p
  obtain ⟨hmem, -⟩ := mem_enabled_filter_iff.mp hp
  obtain ⟨d, hd, hsh⟩ := h (k, PyVal.dict c) hmem
  simp only [PyVal.dict.injEq] at hd
  rw [hd]
  exact hsh

theorem filter_eq_enabled_filter :
    ∀ (mcn : List (String × PyVal)), (∀ p ∈ mcn, ∃ d, p.2 = PyVal.dict d) →
      ∀ log : List LogEntry, ∃ log1,
        filter_disabled_modules log mcn = Except.ok (log1, enabled_filter mcn) := by
  intro mcn
  induction mcn with
  | nil => intro hd log; exact ⟨log, rfl⟩
  | cons p rest ih =>
    intro hd log
    obtain ⟨k, v⟩ := p
    obtain ⟨d, hd0⟩ := hd (k, v) (List.mem_cons_self _ _)
    simp only at hd0
    subst hd0
    by_cases hf : isFalseV (dictGetD d "enabled" (PyVal.bool true)) = true
    · obtain ⟨log1, h1⟩ := ih (fun q hq => hd q (List.mem_cons_of_mem _ hq))
        (log ++ [⟨LogLevel.info, "Module '" ++ k ++ "' is disabled, skipping"⟩])
      refine ⟨log1, ?_⟩
      simp only [filter_disabled_modules, hf, if_true]
      rw [h1]
      simp [enabled_filter, hf]
    · obtain ⟨log1, h1⟩ := ih (fun q hq => hd q (List.mem_cons_of_mem _ hq)) log
      refine ⟨log1, ?_⟩
      simp only [filter_disabled_modules, hf, Bool.false_eq_true, if_false]
      rw [h1]
      simp only [enabled_filter, List.filterMap_cons]
      rw [if_neg (by simpa using hf)]

theorem load_modules_eq_lmwd {env : LoadEnv} {sc : PyDict} {mc : List (String × PyVal)}
    {st : LoaderState}
    (hmod : dictGetD sc "modules" (PyVal.dict []) = PyVal.dict mc)
    (hdicts : ∀ p ∈ normalize_modules mc, ∃ d, p.2 = PyVal.dict d) :
    ∃ log1, load_modules env sc st =
      load_modules_with_dependencies env { st with log := log1 }
        (enabled_filter (normalize_modules mc)) := by
  obtain ⟨log1, h1⟩ := filter_eq_enabled_filter (normalize_modules mc) hdicts st.log
  refine ⟨log1, ?_⟩
  unfold load_modules
  rw [hmod]
  simp only [h1]

/-! ### Facts about a full `load_modules` run from the initial state -/

theorem mem_unique_of_nodup {α : Type} {l : List (String × α)} {k : String} {v1 v2 : α}
    (hnd : (keysOf l).Nodup) (h1 : (k, v1) ∈ l) (h2 : (k, v2) ∈ l) : v1 = v2 := by
  have e1 := alookup_eq_some_of_mem_nodup hnd h1
  have e2 := alookup_eq_some_of_mem_nodup hnd h2
  rw [e1] at e2
  exact Option.some.inj e2

theorem mem_normalize_of_truthy {mc : List (String × PyVal)} {k : String} {v : PyVal}
    (h : (k, v) ∈ mc) (ht : truthy v = true) : (k, v) ∈ normalize_modules mc := by
  simp only [normalize_modules, List.mem_map]
  exact ⟨(k, v), h, by simp [ht]⟩

theorem mem_normalize_inv {mc : List (String × PyVal)} {p : String × PyVal}
    (h : p ∈ normalize_modules mc) :
    ∃ q ∈ mc, p = (q.1, if truthy q.2 then q.2 else PyVal.dict []) := by
  simp only [normalize_modules, List.mem_map] at h
  obtain ⟨q, hq, hpq⟩ := h
  exact ⟨q, hq, hpq.symm⟩

theorem load_modules_run {env : LoadEnv} {sc : PyDict} {mc : List (String × PyVal)}
    (hmod : dictGetD sc "modules" (PyVal.dict []) = PyVal.dict mc)
    (hsh : mc.all (fun p => module_val_shaped p.2) = true)
    (hnd : (keysOf mc).Nodup) :
    ∃ st', load_modules env sc initState = Except.ok st' ∧
      (∀ n, n ∉ keysOf mc → alookup st'.loadedModules n = Option.none) ∧
      (∀ n m, alookup st'.loadedModules n = some m →
        GoodEntry env (enabled_filter (normalize_modules mc)) st'.loadedModules n m) ∧
      Saturated env (enabled_filter (normalize_modules mc)) st'.loadedModules := by
  have hvals := normalize_vals_shaped hsh
  have hdicts : ∀ p ∈ normalize_modules mc, ∃ d, p.2 = PyVal.dict d := by
    intro p hp
    obtain ⟨d, hd, -⟩ := hvals p hp
    exact ⟨d, hd⟩
  obtain ⟨log1, heq⟩ := @load_modules_eq_lmwd env sc mc initState hmod hdicts
  have hshaped : entries_shaped (enabled_filter (normalize_modules mc)) = true :=
    enabled_filter_shaped hvals
  have hkeys : (keysOf (enabled_filter (normalize_modules mc))).Sublist (keysOf mc) := by
    have h1 := keysOf_enabled_filter_sublist (normalize_modules mc)
    rw [keysOf_normalize] at h1
    exact h1
  have hndcfg : (keysOf (enabled_filter (normalize_modules mc))).Nodup :=
    List.Nodup.sublist hkeys hnd
  have hfresh : ∀ p ∈ enabled_filter (normalize_modules mc),
      alookup (initState.loadedModules) p.1 = Option.none := by
    intro p hp
    rfl
  obtain ⟨st', hok⟩ := lmwd_ok_of_shaped (enabled_filter (normalize_modules mc)).length
    (enabled_filter (normalize_modules mc)) { initState with log := log1 } le_rfl hshaped
  refine ⟨st', heq.trans hok, ?_, ?_, ?_⟩
  · intro n hn
    have hn2 : n ∉ keysOf (enabled_filter (normalize_modules mc)) := fun hc =>
      hn (hkeys.subset hc)
    have := lmwd_untouched (enabled_filter (normalize_modules mc)).length
      (enabled_filter (normalize_modules mc)) { initState with log := log1 } st' le_rfl
      hok n hn2
    rw [this]
    rfl
  · intro n m hm
    rcases lmwd_consistency (enabled_filter (normalize_modules mc)).length
      (enabled_filter (normalize_modules mc)) { initState with log := log1 } st' le_rfl
      hndcfg hfresh hok n m hm with h1 | h1
    · exact absurd h1 (by simp [initState, alookup])
    · exact h1
  · exact lmwd_saturated (enabled_filter (normalize_modules mc)).length
      (enabled_filter (normalize_modules mc)) { initState with log := log1 } st' le_rfl
      hndcfg hfresh hok

theorem filter_ok_inv :
    ∀ (mcn : List (String × PyVal)) (log log1 : List LogEntry)
      (en : List (String × PyDict)),
      filter_disabled_modules log mcn = Except.ok (log1, en) →
      en = enabled_filter mcn := by
  intro mcn
  induction mcn with
  | nil =>
    intro log log1 en h
    simp only [filter_disabled_modules, Except.ok.injEq, Prod.mk.injEq] at h
    rw [← h.2]
    rfl
  | cons p rest ih =>
    intro log log1 en h
    obtain ⟨k, v⟩ := p
    cases v with
    | dict d =>
      by_cases hf : isFalseV (dictGetD d "enabled" (PyVal.bool true)) = true
      · simp only [filter_disabled_modules, hf, if_true] at h
        rw [ih _ _ _ h]
        simp [enabled_filter, hf]
      · simp only [filter_disabled_modules, hf, Bool.false_eq_true, if_false] at h
        cases hr : filter_disabled_modules log rest with
        | error e =>
          rw [hr] at h
          exact absurd h (by simp)
        | ok pr =>
          obtain ⟨log2, en2⟩ := pr
          rw [hr] at h
          simp only [Except.ok.injEq, Prod.mk.injEq] at h
          rw [← h.2, ih _ _ _ hr]
          simp only [enabled_filter, List.filterMap_cons]
          rw [if_neg (by simpa using hf)]
    | none => simp [filter_disabled_modules] at h
    | bool b => simp [filter_disabled_modules] at h
    | int n2 => simp [filter_disabled_modules] at h
    | str s => simp [filter_disabled_modules] at h

/-! ### The claims -/

/-- C10: if the startup configuration contains no `"modules"` key at all,
`load_modules` returns normally (no exception) and the registry stays
empty; and the dict comprehension at the start of `load_modules` maps any
module name bound to a falsy value to an empty descriptor before any other
processing. -/
theorem c10_no_modules_key_and_normalization (env : LoadEnv) (sc : PyDict)
    (hmk : alookup sc "modules" = Option.none) :
    load_modules env sc initState = Except.ok initState ∧
    initState.loadedModules = [] ∧
    (∀ (mc : List (String × PyVal)) (n : String) (v : PyVal), (n, v) ∈ mc →
      truthy v = false → (n, PyVal.dict []) ∈ normalize_modules mc) := by
  refine ⟨?_, rfl, ?_⟩
  · have h1 : load_modules env sc initState =
        load_modules_with_dependencies env initState [] := by
      unfold load_modules
      rw [show dictGetD sc "modules" (PyVal.dict []) = PyVal.dict [] by
        simp [dictGetD, hmk]]
      rfl
    rw [h1]
    exact lmwd_eq_done (show load_pass env initState [] = Except.ok (initState, []) from rfl)
  · intro mc n v hmem ht
    simp only [normalize_modules, List.mem_map]
    exact ⟨(n, v), hmem, by simp [ht]⟩

theorem c10_witness :
    load_modules envAll [] initState = Except.ok initState ∧
    initState.loadedModules = [] ∧
    (∀ (mc : List (String × PyVal)) (n : String) (v : PyVal), (n, v) ∈ mc →
      truthy v = false → (n, PyVal.dict []) ∈ normalize_modules mc) :=
  c10_no_modules_key_and_normalization envAll [] rfl

/-- C9: the disabled-module filter removes a descriptor exactly when its
`enabled` value is identically the boolean `False`; any other value,
including the falsy values `0`, `""`, `None` and the string `"false"`,
leaves the module in the enabled set. -/
theorem c9_filter_only_identical_false (log log1 : List LogEntry)
    (mcn : List (String × PyVal)) (en : List (String × PyDict))
    (hok : filter_disabled_modules log mcn = Except.ok (log1, en)) :
    (∀ (k : String) (c : PyDict), (k, c) ∈ en ↔
      ((k, PyVal.dict c) ∈ mcn ∧
        dictGetD c "enabled" (PyVal.bool true) ≠ PyVal.bool false)) ∧
    (∀ v : PyVal, isFalseV v = true ↔ v = PyVal.bool false) ∧
    isFalseV (PyVal.int 0) = false ∧ isFalseV (PyVal.str "") = false ∧
    isFalseV PyVal.none = false ∧ isFalseV (PyVal.str "false") = false := by
  have hen := filter_ok_inv mcn log log1 en hok
  subst hen
  have hiff : ∀ v : PyVal, isFalseV v = true ↔ v = PyVal.bool false := by
    intro v
    cases v with
    | bool b => cases b <;> simp [isFalseV]
    | none => simp [isFalseV]
    | int n => simp [isFalseV]
    | str s => simp [isFalseV]
    | dict d => simp [isFalseV]
  have hiff2 : ∀ v : PyVal, isFalseV v = false ↔ v ≠ PyVal.bool false := by
    intro v
    constructor
    · intro h0 he
      rw [(hiff v).mpr he] at h0
      exact Bool.noConfusion h0
    · intro hne
      cases hv : isFalseV v with
      | false => rfl
      | true => exact absurd ((hiff v).mp hv) hne
  refine ⟨?_, hiff, rfl, rfl, rfl, rfl⟩
  intro k c
  rw [mem_enabled_filter_iff, hiff2]

theorem c9_witness :
    (∀ (k : String) (c : PyDict), (k, c) ∈ [("a", [("enabled", PyVal.int 0)])] ↔
      ((k, PyVal.dict c) ∈ mcW9 ∧
        dictGetD c "enabled" (PyVal.bool true) ≠ PyVal.bool false)) ∧
    (∀ v : PyVal, isFalseV v = true ↔ v = PyVal.bool false) ∧
    isFalseV (PyVal.int 0) = false ∧ isFalseV (PyVal.str "") = false ∧
    isFalseV PyVal.none = false ∧ isFalseV (PyVal.str "false") = false :=
  c9_filter_only_identical_false []
    [⟨LogLevel.info, "Module '" ++ "b" ++ "' is disabled, skipping"⟩]
    mcW9 [("a", [("enabled", PyVal.int 0)])] rfl

/-- C5 counterexample: with a constructor returning a falsy result, the
single-module load attempt for `"m"` fails (the registry stays empty and
`get_module` is absent), yet the final log is completely empty: no
error-level entry describing the cause is emitted, contrary to the claim
that every failed load attempt logs its cause at error level. -/
theorem c5_counterexample :
    load_modules envFalsy scOne initState = Except.ok initState ∧
    get_module initState "m" = Option.none ∧ initState.log = [] := by
  refine ⟨?_, rfl, rfl⟩
  have h2 : load_modules envFalsy scOne initState =
      load_modules_with_dependencies envFalsy initState
        [("m", [("class", PyVal.str "a.C")])] := rfl
  rw [h2]
  exact lmwd_eq_done (show load_pass envFalsy initState
    [("m", [("class", PyVal.str "a.C")])] = Except.ok (initState, []) from rfl)

/-- C5 amended: when the single-module load body raises (no reference
configured, import raises, or the constructor raises), the cause is logged
at error level and the registry gains no entry; when it returns a falsy
class or a falsy instance, the module is skipped silently, with no log
entry at all; in every non-registering case the registry is unchanged. -/
theorem c5_amended_failure_handling (env : LoadEnv) (st : LoaderState) (n : String)
    (clsV : PyVal) (deps : List (String × ModaiModule)) (nc : PyVal) :
    (∀ e, load_module_body env n clsV deps nc = Except.error e →
      load_module env st n clsV deps nc =
        { st with log := st.log ++
          [⟨LogLevel.error, "Failed to load module " ++ n ++ ": " ++ e⟩] }) ∧
    (load_module_body env n clsV deps nc = Except.ok Option.none →
      load_module env st n clsV deps nc = st) ∧
    ((∀ m, load_module_body env n clsV deps nc ≠ Except.ok (some m)) →
      (load_module env st n clsV deps nc).loadedModules = st.loadedModules) := by
  refine ⟨?_, ?_, ?_⟩
  · intro e he
    exact load_module_of_error he
  · intro hs
    exact load_module_of_silent hs
  · intro hfail
    cases hb : load_module_body env n clsV deps nc with
    | error e => rw [load_module_of_error hb]
    | ok m? =>
      cases m? with
      | none => rw [load_module_of_silent hb]
      | some m => exact absurd hb (hfail m)

theorem c5_amended_witness :
    load_module envAll initState "m" PyVal.none [] (PyVal.dict []) =
      { initState with log := initState.log ++
        [⟨LogLevel.error, "Failed to load module " ++ "m" ++ ": " ++
          ("Module '" ++ "m" ++ "' has no class defined")⟩] } ∧
    load_module envFalsy initState "m" (PyVal.str "C") [] (PyVal.dict []) = initState :=
  ⟨(c5_amended_failure_handling envAll initState "m" PyVal.none [] (PyVal.dict [])).1
      ("Module '" ++ "m" ++ "' has no class defined") rfl,
   (c5_amended_failure_handling envFalsy initState "m" (PyVal.str "C") []
      (PyVal.dict [])).2.1 rfl⟩

/-- C7: the registry never shrinks.  Across any resolution sweep and
across the whole resolution loop, an entry present in the registry stays
mapped to the same instance (no operation removes or replaces it), and a
single-module load attempt that does not register an instance leaves the
registry exactly as it was. -/
theorem c7_registry_never_shrinks (env : LoadEnv) :
    (∀ (st st1 : LoaderState) (l rem : List (String × PyDict)),
      (keysOf l).Nodup →
      (∀ p ∈ l, alookup st.loadedModules p.1 = Option.none) →
      load_pass env st l = Except.ok (st1, rem) →
      ∀ n m, alookup st.loadedModules n = some m →
        alookup st1.loadedModules n = some m) ∧
    (∀ (st st' : LoaderState) (l : List (String × PyDict)),
      (keysOf l).Nodup →
      (∀ p ∈ l, alookup st.loadedModules p.1 = Option.none) →
      load_modules_with_dependencies env st l = Except.ok st' →
      ∀ n m, alookup st.loadedModules n = some m →
        alookup st'.loadedModules n = some m) ∧
    (∀ (st : LoaderState) (n : String) (clsV : PyVal)
      (deps : List (String × ModaiModule)) (nc : PyVal),
      (∀ m, load_module_body env n clsV deps nc ≠ Except.ok (some m)) →
      (load_module env st n clsV deps nc).loadedModules = st.loadedModules) := by
  refine ⟨?_, ?_, ?_⟩
  · intro st st1 l rem hnd hfresh h n m hm
    exact load_pass_mono hnd hfresh h n m hm
  · intro st st' l hnd hfresh h n m hm
    exact lmwd_mono l.length l st st' le_rfl hnd hfresh h n m hm
  · intro st n clsV deps nc hfail
    cases hb : load_module_body env n clsV deps nc with
    | error e => rw [load_module_of_error hb]
    | ok m? =>
      cases m? with
      | none => rw [load_module_of_silent hb]
      | some m => exact absurd hb (hfail m)

theorem c7_witness :
    alookup (LoaderState.mk
      [("z", ModaiModule.mk "Z" [] (PyVal.dict [])),
        ("m", ModaiModule.mk "M" [] (PyVal.dict []))]
      [⟨LogLevel.info, "Successfully loaded module: " ++ "m"⟩]).loadedModules "z" =
      some (ModaiModule.mk "Z" [] (PyVal.dict [])) ∧
    (load_module envAll stPre "q" PyVal.none [] (PyVal.dict [])).loadedModules =
      stPre.loadedModules :=
  ⟨(c7_registry_never_shrinks envAll).1 stPre
      (LoaderState.mk
        [("z", ModaiModule.mk "Z" [] (PyVal.dict [])),
          ("m", ModaiModule.mk "M" [] (PyVal.dict []))]
        [⟨LogLevel.info, "Successfully loaded module: " ++ "m"⟩])
      [("m", [("class", PyVal.str "M")])] []
      (by decide)
      (fun p hp => by
        rw [List.mem_singleton] at hp
        subst hp
        rfl)
      rfl "z" (ModaiModule.mk "Z" [] (PyVal.dict [])) rfl,
   (c7_registry_never_shrinks envAll).2.2 stPre "q" PyVal.none [] (PyVal.dict [])
      (fun m h => by simp [load_module_body, truthy] at h)⟩

/-- C2: when a full sweep removes no entry from a non-empty remaining set,
the loader logs one error naming every stuck module and stops (it returns
immediately instead of recursing), and every module of the stuck remainder
is absent from the registry; moreover a sweep never grows the remaining
set (so each recursion strictly shrinks it and the loop terminates), and
on every well-shaped descriptor set the loop returns a result. -/
theorem c2_stuck_detection_and_termination (env : LoadEnv) (st0 st1 : LoaderState)
    (l rem : List (String × PyDict))
    (hpass : load_pass env st0 l = Except.ok (st1, rem))
    (hne : rem ≠ []) (hlen : rem.length = l.length)
    (hfresh : ∀ p ∈ l, alookup st0.loadedModules p.1 = Option.none) :
    load_modules_with_dependencies env st0 l =
      Except.ok { st1 with
        log := st1.log ++ [⟨LogLevel.error, unresolvable_msg rem⟩] } ∧
    (∀ p ∈ rem, alookup st1.loadedModules p.1 = Option.none) ∧
    (∀ (l2 : List (String × PyDict)) (st2 st3 : LoaderState)
      (rem2 : List (String × PyDict)),
      load_pass env st2 l2 = Except.ok (st3, rem2) → rem2.length ≤ l2.length) ∧
    (∀ (l3 : List (String × PyDict)) (st4 : LoaderState), entries_shaped l3 = true →
      ∃ st5, load_modules_with_dependencies env st4 l3 = Except.ok st5) := by
  have hreml : rem = l := (load_pass_rem_sublist hpass).eq_of_length hlen
  obtain ⟨hst, -⟩ := load_pass_stall hpass hreml
  refine ⟨lmwd_eq_stuck hpass hne hlen, ?_, ?_, ?_⟩
  · intro p hp
    rw [hst]
    exact hfresh p (by rw [← hreml]; exact hp)
  · intro l2 st2 st3 rem2 h2
    exact (load_pass_rem_sublist h2).length_le
  · intro l3 st4 hsh3
    exact lmwd_ok_of_shaped l3.length l3 st4 le_rfl hsh3

theorem c2_witness :
    load_modules_with_dependencies envAll initState cfgCycle =
      Except.ok { initState with
        log := initState.log ++ [⟨LogLevel.error, unresolvable_msg cfgCycle⟩] } ∧
    (∀ p ∈ cfgCycle, alookup initState.loadedModules p.1 = Option.none) ∧
    (∀ (l2 : List (String × PyDict)) (st2 st3 : LoaderState)
      (rem2 : List (String × PyDict)),
      load_pass envAll st2 l2 = Except.ok (st3, rem2) → rem2.length ≤ l2.length) ∧
    (∀ (l3 : List (String × PyDict)) (st4 : LoaderState), entries_shaped l3 = true →
      ∃ st5, load_modules_with_dependencies envAll st4 l3 = Except.ok st5) :=
  c2_stuck_detection_and_termination envAll initState initState cfgCycle cfgCycle rfl
    (by simp [cfgCycle]) rfl (fun p hp => rfl)

/-- C4: under the shape assumed by the claim, where the modules section is
a mapping from name to descriptor mapping, `load_modules` never propagates
an exception to its caller, whatever per-module misconfiguration the set
contains, with every failure observable only through `get_module`
returning an absent result. -/
theorem c4_no_exception_propagates (env : LoadEnv) (sc : PyDict)
    (hsh : startup_shaped sc = true) :
    ∃ st', load_modules env sc initState = Except.ok st' := by
  unfold startup_shaped at hsh
  cases hmod : dictGetD sc "modules" (PyVal.dict []) with
  | dict mc =>
    rw [hmod] at hsh
    have hvals := normalize_vals_shaped hsh
    have hdicts : ∀ p ∈ normalize_modules mc, ∃ d, p.2 = PyVal.dict d := fun p hp =>
      (hvals p hp).imp (fun d hd => hd.1)
    obtain ⟨log1, heq⟩ := @load_modules_eq_lmwd env sc mc initState hmod hdicts
    obtain ⟨st', hok⟩ := lmwd_ok_of_shaped
      (enabled_filter (normalize_modules mc)).length
      (enabled_filter (normalize_modules mc)) { initState with log := log1 } le_rfl
      (enabled_filter_shaped hvals)
    exact ⟨st', heq.trans hok⟩
  | none =>
    rw [hmod] at hsh
    simp at hsh
  | bool b =>
    rw [hmod] at hsh
    simp at hsh
  | int n =>
    rw [hmod] at hsh
    simp at hsh
  | str s =>
    rw [hmod] at hsh
    simp at hsh

theorem c4_witness :
    ∃ st', load_modules envRaise scBad4 initState = Except.ok st' :=
  c4_no_exception_propagates envRaise scBad4 (by decide)

/-- C8: after a `load_modules` run, `get_module` is a total function that
returns the genuinely registered instance for a loaded name and an
explicit absent result (`Option.none`) for every other name, including
names that never appeared in the descriptor set; it cannot raise. -/
theorem c8_get_module_registered_or_absent (env : LoadEnv) (sc : PyDict)
    (mc : List (String × PyVal)) (n : String)
    (hmod : dictGetD sc "modules" (PyVal.dict []) = PyVal.dict mc)
    (hsh : mc.all (fun p => module_val_shaped p.2) = true)
    (hnd : (keysOf mc).Nodup) :
    ∃ st', load_modules env sc initState = Except.ok st' ∧
      (∀ m, alookup st'.loadedModules n = some m →
        get_module st' n = some m ∧ (n, m) ∈ st'.loadedModules) ∧
      (alookup st'.loadedModules n = Option.none → get_module st' n = Option.none) ∧
      (n ∉ keysOf mc → get_module st' n = Option.none) := by
  obtain ⟨st', hok, huntouched, -, -⟩ := load_modules_run hmod hsh hnd
  refine ⟨st', hok, ?_, ?_, ?_⟩
  · intro m hm
    exact ⟨hm, alookup_eq_some_mem hm⟩
  · intro hm
    exact hm
  · intro hn
    exact huntouched n hn

theorem c8_witness :
    ∃ st', load_modules envAll scOne initState = Except.ok st' ∧
      (∀ m, alookup st'.loadedModules "ghost" = some m →
        get_module st' "ghost" = some m ∧ ("ghost", m) ∈ st'.loadedModules) ∧
      (alookup st'.loadedModules "ghost" = Option.none →
        get_module st' "ghost" = Option.none) ∧
      ("ghost" ∉ keysOf [("m", PyVal.dict [("class", PyVal.str "a.C")])] →
        get_module st' "ghost" = Option.none) :=
  c8_get_module_registered_or_absent envAll scOne
    [("m", PyVal.dict [("class", PyVal.str "a.C")])] "ghost" rfl (by decide) (by decide)

/-- C6: a descriptor whose `enabled` value is identically `False` is never
registered, and it is invisible to dependency resolution: a module that
declares a dependency on the disabled module's name behaves exactly as if
it depended on a nonexistent module, so it also fails to load. -/
theorem c6_disabled_invisible (env : LoadEnv) (sc : PyDict)
    (mc : List (String × PyVal)) (nD nB : String) (dD dB : PyDict) (alias0 : String)
    (hmod : dictGetD sc "modules" (PyVal.dict []) = PyVal.dict mc)
    (hsh : mc.all (fun p => module_val_shaped p.2) = true)
    (hnd : (keysOf mc).Nodup)
    (hD : (nD, PyVal.dict dD) ∈ mc)
    (hDdis : dictGetD dD "enabled" (PyVal.bool true) = PyVal.bool false)
    (hB : (nB, PyVal.dict dB) ∈ mc)
    (hdep : (alias0, PyVal.str nD) ∈ dep_items_of dB) :
    ∃ st', load_modules env sc initState = Except.ok st' ∧
      get_module st' nD = Option.none ∧ get_module st' nB = Option.none := by
  obtain ⟨st', hok, -, hcons, -⟩ := @load_modules_run env sc mc hmod hsh hnd
  have hDen : alookup dD "enabled" = some (PyVal.bool false) := by
    unfold dictGetD at hDdis
    cases he : alookup dD "enabled" with
    | none =>
      rw [he] at hDdis
      simp at hDdis
    | some x =>
      rw [he] at hDdis
      simp only [Option.getD_some] at hDdis
      rw [hDdis]
  have hDne : dD ≠ [] := by
    intro he
    rw [he] at hDen
    simp [alookup] at hDen
  have hDtruthy : truthy (PyVal.dict dD) = true := by
    cases hdd : dD with
    | nil => exact absurd hdd hDne
    | cons q rest => simp [truthy]
  have hnDcfg : nD ∉ keysOf (enabled_filter (normalize_modules mc)) := by
    intro hcf
    obtain ⟨c, hc⟩ := alookup_isSome_of_mem_keys hcf
    obtain ⟨hmemN, hfalse⟩ := mem_enabled_filter_iff.mp (alookup_eq_some_mem hc)
    obtain ⟨q, hqmem, hqeq⟩ := mem_normalize_inv hmemN
    obtain ⟨k0, v0⟩ := q
    simp only [Prod.mk.injEq] at hqeq
    obtain ⟨hk0, hv0⟩ := hqeq
    subst hk0
    have hv0eq : v0 = PyVal.dict dD := mem_unique_of_nodup hnd hqmem hD
    subst hv0eq
    rw [if_pos hDtruthy] at hv0
    have hcd : c = dD := by
      have := hv0
      simp only [PyVal.dict.injEq] at this
      exact this
    subst hcd
    rw [hDdis] at hfalse
    simp [isFalseV] at hfalse
  have hregD : alookup st'.loadedModules nD = Option.none := by
    cases hr : alookup st'.loadedModules nD with
    | none => rfl
    | some m =>
      exfalso
      obtain ⟨c, deps, hc, -, -⟩ := hcons nD m hr
      exact hnDcfg (mem_keysOf_of_mem (alookup_eq_some_mem hc))
  have hBne2 : dB ≠ [] := by
    intro he
    rw [he] at hdep
    simp [dep_items_of, dictGetD, alookup] at hdep
  have hBtruthy : truthy (PyVal.dict dB) = true := by
    cases hdb : dB with
    | nil => exact absurd hdb hBne2
    | cons q rest => simp [truthy]
  have hshB : entry_shaped dB = true := by
    have h2 := List.all_eq_true.mp hsh (nB, PyVal.dict dB) hB
    simp only [module_val_shaped] at h2
    rw [if_pos hBtruthy] at h2
    exact h2
  have hregB : alookup st'.loadedModules nB = Option.none := by
    cases hr : alookup st'.loadedModules nB with
    | none => rfl
    | some m =>
      exfalso
      obtain ⟨c, deps, hc, hcmd, -⟩ := hcons nB m hr
      obtain ⟨hmemN, -⟩ := mem_enabled_filter_iff.mp (alookup_eq_some_mem hc)
      obtain ⟨q, hqmem, hqeq⟩ := mem_normalize_inv hmemN
      obtain ⟨k0, v0⟩ := q
      simp only [Prod.mk.injEq] at hqeq
      obtain ⟨hk0, hv0⟩ := hqeq
      subst hk0
      have hv0eq : v0 = PyVal.dict dB := mem_unique_of_nodup hnd hqmem hB
      subst hv0eq
      rw [if_pos hBtruthy] at hv0
      have hcd : c = dB := by
        simp only [PyVal.dict.injEq] at hv0
        exact hv0
      rw [hcd] at hcmd
      have hnone := cmd_none_of_dep_absent hdep hregD
        (dep_items_hashable_of_shaped hshB)
      rw [hcmd] at hnone
      simp at hnone
  exact ⟨st', hok, hregD, hregB⟩

theorem c6_witness :
    ∃ st', load_modules envAll [("modules", PyVal.dict [entDis, entDep])]
        initState = Except.ok st' ∧
      get_module st' "d" = Option.none ∧ get_module st' "e" = Option.none :=
  c6_disabled_invisible envAll [("modules", PyVal.dict [entDis, entDep])]
    [entDis, entDep] "d" "e"
    [("class", PyVal.str "D"), ("enabled", PyVal.bool false)]
    [("class", PyVal.str "E"), ("module_dependencies", PyVal.dict [("x", PyVal.str "d")])]
    "x" rfl (by decide) (by decide)
    (List.mem_cons_self _ _) rfl
    (List.mem_cons_of_mem _ (List.mem_cons_self _ _))
    (List.mem_cons_self _ _)

/-- C3: permuting the declaration order of a resolvable modules mapping
leaves the final registry pointwise identical: both runs return normally
and `get_module` agrees on every name; since every registered instance
records exactly its construction inputs, agreement covers the per-name
construction inputs as well. -/
theorem c3_order_independence (env : LoadEnv) (mc1 mc2 : List (String × PyVal))
    (hperm : mc1.Perm mc2)
    (hnd : (keysOf mc1).Nodup)
    (hsh : mc1.all (fun p => module_val_shaped p.2) = true) :
    ∃ st1 st2,
      load_modules env [("modules", PyVal.dict mc1)] initState = Except.ok st1 ∧
      load_modules env [("modules", PyVal.dict mc2)] initState = Except.ok st2 ∧
      ∀ n, get_module st1 n = get_module st2 n := by
  have hnd2 : (keysOf mc2).Nodup := ((hperm.map Prod.fst).nodup_iff).mp hnd
  have hsh2 : mc2.all (fun p => module_val_shaped p.2) = true := by
    rw [List.all_eq_true] at hsh ⊢
    intro p hp
    exact hsh p (hperm.mem_iff.mpr hp)
  obtain ⟨st1, hok1, -, hcons1, hsat1⟩ :=
    @load_modules_run env [("modules", PyVal.dict mc1)] mc1
    (show dictGetD [("modules", PyVal.dict mc1)] "modules" (PyVal.dict []) =
      PyVal.dict mc1 from rfl) hsh hnd
  obtain ⟨st2, hok2, -, hcons2, hsat2⟩ :=
    @load_modules_run env [("modules", PyVal.dict mc2)] mc2
    (show dictGetD [("modules", PyVal.dict mc2)] "modules" (PyVal.dict []) =
      PyVal.dict mc2 from rfl) hsh2 hnd2
  have hpermCfg : (enabled_filter (normalize_modules mc1)).Perm
      (enabled_filter (normalize_modules mc2)) := by
    unfold enabled_filter normalize_modules
    exact (hperm.map _).filterMap _
  have hndCfg1 : (keysOf (enabled_filter (normalize_modules mc1))).Nodup := by
    have h1 := keysOf_enabled_filter_sublist (normalize_modules mc1)
    rw [keysOf_normalize] at h1
    exact List.Nodup.sublist h1 hnd
  have hcfg : ∀ k, alookup (enabled_filter (normalize_modules mc1)) k =
      alookup (enabled_filter (normalize_modules mc2)) k :=
    alookup_perm hpermCfg hndCfg1
  refine ⟨st1, st2, hok1, hok2, ?_⟩
  intro n
  exact registries_agree hcfg hcons1 hsat1 hcons2 hsat2 n

theorem c3_witness :
    ∃ st1 st2,
      load_modules envAll [("modules", PyVal.dict [entA, entB])] initState =
        Except.ok st1 ∧
      load_modules envAll [("modules", PyVal.dict [entB, entA])] initState =
        Except.ok st2 ∧
      ∀ n, get_module st1 n = get_module st2 n :=
  c3_order_independence envAll [entA, entB] [entB, entA]
    (List.Perm.swap entB entA []) (by decide) (by decide)

/-- C1: for a descriptor set consisting of A (no dependencies), B
(depending on A under local alias `"foo"`), and C (depending on B under
local alias `"bar"`), all with resolvable references and non-raising,
truthy constructors, one `load_modules` call registers all three modules
in any declaration order, and B's dependency snapshot maps `"foo"` to the
registered A instance while C's maps `"bar"` to the registered B
instance. -/
theorem c1_linear_chain (env : LoadEnv) (cfg : List (String × PyVal))
    (a b c pa pb pc ca cb cc : String)
    (hab : a ≠ b) (hbc : b ≠ c) (hac : a ≠ c)
    (hpa : pa ≠ "") (hpb : pb ≠ "") (hpc : pc ≠ "")
    (hia : env.importClass pa = Except.ok (some ca))
    (hib : env.importClass pb = Except.ok (some cb))
    (hic : env.importClass pc = Except.ok (some cc))
    (hoa : env.constructOutcome ca [] (PyVal.dict []) = ConstructOutcome.ok)
    (hob : env.constructOutcome cb
      [("foo", ModaiModule.mk ca [] (PyVal.dict []))] (PyVal.dict []) =
      ConstructOutcome.ok)
    (hoc : env.constructOutcome cc
      [("bar", ModaiModule.mk cb [("foo", ModaiModule.mk ca [] (PyVal.dict []))]
        (PyVal.dict []))] (PyVal.dict []) = ConstructOutcome.ok)
    (hperm : cfg.Perm
      [(a, PyVal.dict [("class", PyVal.str pa)]),
       (b, PyVal.dict [("class", PyVal.str pb),
         ("module_dependencies", PyVal.dict [("foo", PyVal.str a)])]),
       (c, PyVal.dict [("class", PyVal.str pc),
         ("module_dependencies", PyVal.dict [("bar", PyVal.str b)])])]) :
    ∃ st', load_modules env [("modules", PyVal.dict cfg)] initState = Except.ok st' ∧
      get_module st' a = some (ModaiModule.mk ca [] (PyVal.dict [])) ∧
      get_module st' b = some (ModaiModule.mk cb
        [("foo", ModaiModule.mk ca [] (PyVal.dict []))] (PyVal.dict [])) ∧
      get_module st' c = some (ModaiModule.mk cc
        [("bar", ModaiModule.mk cb [("foo", ModaiModule.mk ca [] (PyVal.dict []))]
          (PyVal.dict []))] (PyVal.dict [])) ∧
      (ModaiModule.mk cb [("foo", ModaiModule.mk ca [] (PyVal.dict []))]
        (PyVal.dict [])).dependencies =
        [("foo", ModaiModule.mk ca [] (PyVal.dict []))] ∧
      (ModaiModule.mk cc [("bar", ModaiModule.mk cb
          [("foo", ModaiModule.mk ca [] (PyVal.dict []))] (PyVal.dict []))]
        (PyVal.dict [])).dependencies =
        [("bar", ModaiModule.mk cb [("foo", ModaiModule.mk ca [] (PyVal.dict []))]
          (PyVal.dict []))] := by
  have hnd : (keysOf cfg).Nodup := by
    refine ((hperm.map Prod.fst).nodup_iff).mpr ?_
    simp [keysOf, hab, hbc, hac]
  have hsh : cfg.all (fun p => module_val_shaped p.2) = true := by
    rw [List.all_eq_true]
    intro p hp
    have hp2 := hperm.mem_iff.mp hp
    simp only [List.mem_cons, List.not_mem_nil, or_false] at hp2
    rcases hp2 with rfl | rfl | rfl
    · rfl
    · rfl
    · rfl
  obtain ⟨st', hok, -, -, hsat⟩ :=
    @load_modules_run env [("modules", PyVal.dict cfg)] cfg
    (show dictGetD [("modules", PyVal.dict cfg)] "modules" (PyVal.dict []) =
      PyVal.dict cfg from rfl) hsh hnd
  have hndCfg : (keysOf (enabled_filter (normalize_modules cfg))).Nodup := by
    have h1 := keysOf_enabled_filter_sublist (normalize_modules cfg)
    rw [keysOf_normalize] at h1
    exact List.Nodup.sublist h1 hnd
  have hlook : ∀ (n : String) (d : PyDict), (n, PyVal.dict d) ∈ cfg →
      truthy (PyVal.dict d) = true →
      isFalseV (dictGetD d "enabled" (PyVal.bool true)) = false →
      alookup (enabled_filter (normalize_modules cfg)) n = some d := by
    intro n d hmem ht hf
    refine alookup_eq_some_of_mem_nodup hndCfg ?_
    refine mem_enabled_filter_iff.mpr ⟨?_, hf⟩
    exact mem_normalize_of_truthy hmem ht
  have hlookA : alookup (enabled_filter (normalize_modules cfg)) a =
      some [("class", PyVal.str pa)] := by
    refine hlook a _ ?_ rfl rfl
    exact hperm.mem_iff.mpr (List.mem_cons_self _ _)
  have hlookB : alookup (enabled_filter (normalize_modules cfg)) b =
      some [("class", PyVal.str pb),
        ("module_dependencies", PyVal.dict [("foo", PyVal.str a)])] := by
    refine hlook b _ ?_ rfl rfl
    exact hperm.mem_iff.mpr (List.mem_cons_of_mem _ (List.mem_cons_self _ _))
  have hlookC : alookup (enabled_filter (normalize_modules cfg)) c =
      some [("class", PyVal.str pc),
        ("module_dependencies", PyVal.dict [("bar", PyVal.str b)])] := by
    refine hlook c _ ?_ rfl rfl
    exact hperm.mem_iff.mpr
      (List.mem_cons_of_mem _ (List.mem_cons_of_mem _ (List.mem_cons_self _ _)))
  have hta : truthy (PyVal.str pa) = true := by simp [truthy, hpa]
  have htb : truthy (PyVal.str pb) = true := by simp [truthy, hpb]
  have htc : truthy (PyVal.str pc) = true := by simp [truthy, hpc]
  have hbodyA : load_module_body env a (class_of [("class", PyVal.str pa)]) []
      (config_of [("class", PyVal.str pa)]) =
      Except.ok (some (ModaiModule.mk ca [] (PyVal.dict []))) := by
    show load_module_body env a (PyVal.str pa) [] (PyVal.dict []) = _
    simp only [load_module_body, hta, Bool.true_eq_false, if_false,
      import_class, hia, hoa]
  have hregA : alookup st'.loadedModules a =
      some (ModaiModule.mk ca [] (PyVal.dict [])) := by
    refine hsat a _ [] _ hlookA rfl hbodyA
  have hcmdB : construct_module_dependencies st'.loadedModules
      (dep_items_of [("class", PyVal.str pb),
        ("module_dependencies", PyVal.dict [("foo", PyVal.str a)])]) =
      Except.ok (some [("foo", ModaiModule.mk ca [] (PyVal.dict []))]) := by
    show construct_module_dependencies st'.loadedModules [("foo", PyVal.str a)] = _
    simp only [construct_module_dependencies, hregA]
  have hbodyB : load_module_body env b
      (class_of [("class", PyVal.str pb),
        ("module_dependencies", PyVal.dict [("foo", PyVal.str a)])])
      [("foo", ModaiModule.mk ca [] (PyVal.dict []))]
      (config_of [("class", PyVal.str pb),
        ("module_dependencies", PyVal.dict [("foo", PyVal.str a)])]) =
      Except.ok (some (ModaiModule.mk cb
        [("foo", ModaiModule.mk ca [] (PyVal.dict []))] (PyVal.dict []))) := by
    show load_module_body env b (PyVal.str pb)
      [("foo", ModaiModule.mk ca [] (PyVal.dict []))] (PyVal.dict []) = _
    simp only [load_module_body, htb, Bool.true_eq_false, if_false,
      import_class, hib, hob]
  have hregB : alookup st'.loadedModules b =
      some (ModaiModule.mk cb [("foo", ModaiModule.mk ca [] (PyVal.dict []))]
        (PyVal.dict [])) := by
    refine hsat b _ _ _ hlookB hcmdB hbodyB
  have hcmdC : construct_module_dependencies st'.loadedModules
      (dep_items_of [("class", PyVal.str pc),
        ("module_dependencies", PyVal.dict [("bar", PyVal.str b)])]) =
      Except.ok (some [("bar", ModaiModule.mk cb
        [("foo", ModaiModule.mk ca [] (PyVal.dict []))] (PyVal.dict []))]) := by
    show construct_module_dependencies st'.loadedModules [("bar", PyVal.str b)] = _
    simp only [construct_module_dependencies, hregB]
  have hbodyC : load_module_body env c
      (class_of [("class", PyVal.str pc),
        ("module_dependencies", PyVal.dict [("bar", PyVal.str b)])])
      [("bar", ModaiModule.mk cb [("foo", ModaiModule.mk ca [] (PyVal.dict []))]
        (PyVal.dict []))]
      (config_of [("class", PyVal.str pc),
        ("module_dependencies", PyVal.dict [("bar", PyVal.str b)])]) =
      Except.ok (some (ModaiModule.mk cc
        [("bar", ModaiModule.mk cb [("foo", ModaiModule.mk ca [] (PyVal.dict []))]
          (PyVal.dict []))] (PyVal.dict []))) := by
    show load_module_body env c (PyVal.str pc)
      [("bar", ModaiModule.mk cb [("foo", ModaiModule.mk ca [] (PyVal.dict []))]
        (PyVal.dict []))] (PyVal.dict []) = _
    simp only [load_module_body, htc, Bool.true_eq_false, if_false,
      import_class, hic, hoc]
  have hregC : alookup st'.loadedModules c =
      some (ModaiModule.mk cc [("bar", ModaiModule.mk cb
        [("foo", ModaiModule.mk ca [] (PyVal.dict []))] (PyVal.dict []))]
        (PyVal.dict [])) := by
    refine hsat c _ _ _ hlookC hcmdC hbodyC
  exact ⟨st', hok, hregA, hregB, hregC, rfl, rfl⟩

theorem c1_witness :
    ∃ st', load_modules envAll
        [("modules", PyVal.dict [entB, entA, entC])] initState = Except.ok st' ∧
      get_module st' "a" = some (ModaiModule.mk "pa" [] (PyVal.dict [])) ∧
      get_module st' "b" = some (ModaiModule.mk "pb"
        [("foo", ModaiModule.mk "pa" [] (PyVal.dict []))] (PyVal.dict [])) ∧
      get_module st' "c" = some (ModaiModule.mk "pc"
        [("bar", ModaiModule.mk "pb" [("foo", ModaiModule.mk "pa" [] (PyVal.dict []))]
          (PyVal.dict []))] (PyVal.dict [])) ∧
      (ModaiModule.mk "pb" [("foo", ModaiModule.mk "pa" [] (PyVal.dict []))]
        (PyVal.dict [])).dependencies =
        [("foo", ModaiModule.mk "pa" [] (PyVal.dict []))] ∧
      (ModaiModule.mk "pc" [("bar", ModaiModule.mk "pb"
          [("foo", ModaiModule.mk "pa" [] (PyVal.dict []))] (PyVal.dict []))]
        (PyVal.dict [])).dependencies =
        [("bar", ModaiModule.mk "pb" [("foo", ModaiModule.mk "pa" [] (PyVal.dict []))]
          (PyVal.dict []))] :=
  c1_linear_chain envAll [entB, entA, entC] "a" "b" "c" "pa" "pb" "pc" "pa" "pb" "pc"
    (by decide) (by decide) (by decide) (by decide) (by decide) (by decide)
    rfl rfl rfl rfl rfl rfl
    (List.Perm.swap entA entB [entC])
